import Mathlib

/-!
# Verification of the Sponge crawler core

A shallow embedding of the Sponge web crawler (`src/crawler/SpongeCrawler.js`,
`src/crawler/UrlQueue.js`, `src/crawler/PageEstimator.js`,
`src/utils/FilterManager.js`, `src/downloader/DocumentDownloader.js`) in Lean 4,
together with theorems settling the frozen claims C1..C10 about the crawl
engine: frontier ordering, filtering policy, robots gating, the traversal
loop's budget/depth invariants, the page estimator's error handling, and the
document downloader's partial-failure cleanup.

Conventions of the embedding:
* JavaScript strings are Lean `String`s; regular-expression tests from the
  source are implemented as explicit string functions.
* A WHATWG `URL` object is the `Url` structure below; crawler code receives
  already-resolved URLs, and relative-reference resolution (`new URL(href,
  base)`) is an oracle supplied by the environment in which the crawler runs.
* JS `Set` and `Map` are association lists with JS insertion-order
  semantics (`Set.add` appends if absent, `Map.set` overwrites in place).
* `async`/`await` effects are explicit state passing; HTTP and filesystem
  collaborators are oracles carried in an environment record.
* Thrown JS exceptions are `Except String`; a `try`/`catch` is a `match`.
-/

namespace Sponge

/-! ## String helpers (explicit implementations of the JS regex tests)

All string operations are implemented on the character list of the string:
the crawler's data is ASCII URLs, headers and markup, for which these agree
with the library functions, and list recursion keeps every concrete run of
the model computable by the kernel. -/

/-- Substring test on character lists: does `pat` occur inside `s`? -/
def listContainsSub (s pat : List Char) : Bool :=
  match s with
  | [] => pat.isEmpty
  | _ :: tl => pat.isPrefixOf s || listContainsSub tl pat

/-- JS `String.prototype.includes` / an unanchored regex literal match. -/
def strContainsSub (s pat : String) : Bool :=
  listContainsSub s.toList pat.toList

/-- ASCII lower-casing of one character, as `toLowerCase` acts on the ASCII
range. -/
def charLower (c : Char) : Char :=
  if 65 ≤ c.toNat ∧ c.toNat ≤ 90 then Char.ofNat (c.toNat + 32) else c

/-- JS `toLowerCase` on ASCII text. -/
def strLower (s : String) : String :=
  String.mk (s.toList.map charLower)

/-- Case-insensitive substring test (models a `/.../i` regex of a literal). -/
def strContainsCI (s pat : String) : Bool :=
  strContainsSub (strLower s) (strLower pat)

/-- Suffix test. -/
def strEndsWith (s pat : String) : Bool :=
  pat.toList.reverse.isPrefixOf s.toList.reverse

/-- Case-insensitive suffix test. -/
def strEndsWithCI (s pat : String) : Bool :=
  strEndsWith (strLower s) (strLower pat)

/-- Prefix test (JS `startsWith` / an anchored regex). -/
def strStartsWith (s pat : String) : Bool :=
  pat.toList.isPrefixOf s.toList

/-- Split a character list at a separator character; always nonempty, and
`[[]]` on the empty list, matching both JS `split` and `String.splitOn` for
a one-character separator. -/
def splitOnChar (c : Char) : List Char → List (List Char)
  | [] => [[]]
  | x :: tl =>
    let r := splitOnChar c tl
    if x == c then [] :: r
    else
      match r with
      | [] => [[x]]
      | h :: t => (x :: h) :: t

def strSplitOnChar (c : Char) (s : String) : List String :=
  (splitOnChar c s.toList).map String.mk

/-- `String.prototype.trim` as it acts on header values: strip space
characters from both ends. -/
def strTrim (s : String) : String :=
  String.mk (((s.toList.dropWhile (fun c => c == ' ')).reverse.dropWhile
    (fun c => c == ' ')).reverse)

/-- JS `/^\d+$/.test(s)`: nonempty and all decimal digits. -/
def strAllDigits (s : String) : Bool :=
  !s.toList.isEmpty && s.toList.all (fun c => c.isDigit)

/-- `parseInt` on a string of decimal digits (the only way the crawler calls
it after a `/^\d+$/` test). -/
def parseDigits (s : String) : Nat :=
  s.toList.foldl (fun acc c => acc * 10 + (c.toNat - 48)) 0

/-! ## URLs

The WHATWG `URL` object as the crawler consumes it: protocol, hostname,
pathname, search parameters and fragment.  `urlToString` is
`URL.prototype.toString` on such a value (the crawler only ever compares and
stores URLs it has itself normalised through `new URL(...).toString()`, so
URL equality is structural equality of `Url`). -/

structure Url where
  protocol : String         -- e.g. "https:" (includes the colon, as in JS)
  hostname : String
  pathname : String         -- always starts with "/"
  search : List (String × String)   -- URLSearchParams, in order
  hash : String             -- fragment including "#", or ""
deriving DecidableEq, Repr

def joinAmp : List String → String
  | [] => ""
  | [x] => x
  | x :: tl => x ++ "&" ++ joinAmp tl

def renderQuery : List (String × String) → String
  | [] => ""
  | ps => "?" ++ joinAmp (ps.map (fun p => p.1 ++ "=" ++ p.2))

def urlToString (u : Url) : String :=
  u.protocol ++ "//" ++ u.hostname ++ u.pathname ++ renderQuery u.search ++ u.hash

/-- `url.searchParams.get(k)`: first value for `k`, or none. -/
def searchGet (u : Url) (k : String) : Option String :=
  (u.search.find? (fun p => p.1 == k)).map (·.2)

/-- `url.searchParams.set(k, v)`: replace the first binding in place (dropping
any later duplicates of the key), or append. -/
def searchSet (ps : List (String × String)) (k v : String) : List (String × String) :=
  match ps with
  | [] => [(k, v)]
  | p :: tl =>
    if p.1 == k then (k, v) :: tl.filter (fun q => q.1 != k)
    else p :: searchSet tl k v

/-! ## JS collection helpers -/

/-- JS `Set.has` / `Array.includes` over a list representation. -/
def jsHas [BEq α] (l : List α) (x : α) : Bool := l.contains x

/-- JS `Set.add`: append if absent (insertion-ordered set). -/
def jsSetAdd [BEq α] (l : List α) (x : α) : List α :=
  if l.contains x then l else l ++ [x]

/-- JS `Map.set`: overwrite the value in place if the key exists, else append. -/
def jsMapSet [BEq κ] (m : List (κ × β)) (k : κ) (v : β) : List (κ × β) :=
  if m.any (fun p => p.1 == k) then
    m.map (fun p => if p.1 == k then (k, v) else p)
  else m ++ [(k, v)]

/-- JS `Map.has`. -/
def jsMapHas [BEq κ] (m : List (κ × β)) (k : κ) : Bool :=
  m.any (fun p => p.1 == k)

/-- A JS `Set` built from a list (`new Set(array)`): keeps the first
occurrence of each element, in insertion order. -/
def jsSetOfList [BEq α] (l : List α) : List α :=
  l.foldl jsSetAdd []

/-! ## FilterManager (`src/utils/FilterManager.js`)

The constructor compiles `config.allowedFileTypes` (lower-cased) into the
`documentExtensions` set and fixes the ignore-pattern list.  Each regex from
the source is implemented as an explicit string test; the equivalences are
noted at each definition.  The JS methods take URL strings and re-parse them
with `new URL(url)`; the crawler only ever passes strings it has itself
normalised via `new URL(...).toString()`, for which parsing is the inverse of
`urlToString`, so the embedding takes the `Url` value and renders it where
the source matches regexes against the string. -/

structure FilterConfig where
  allowedFileTypes : List String
  blockedDomains : List String
  allowedDomains : List String
  stayOnDomain : Bool
  /-- `config.startUrl` as a parsed URL; `none` when the config value is
  absent (falsy) or `new URL(config.startUrl)` would throw. -/
  startUrl : Option Url
  minFileSize : Int
  maxFileSize : Int
  savePageContent : Bool
deriving Repr

/-- `this.documentExtensions = new Set(config.allowedFileTypes.map(toLowerCase))`. -/
def documentExtensions (cfg : FilterConfig) : List String :=
  jsSetOfList (cfg.allowedFileTypes.map strLower)

/-- Regex 1 of the ignore patterns, an exact translation of the alternation
with the end anchor. -/
def ignoreExtPattern (s : String) : Bool :=
  [".js", ".css", ".woff", ".woff2", ".ttf", ".eot", ".ico"].any
    (fun suf => strEndsWithCI s suf)

/-- Regex 6 of the ignore patterns: a match of an unanchored occurrence of
the pattern requires some occurrence of the hash character with no slash
after it, which holds iff the text after the last hash holds no slash. -/
def anchorOnlyPattern (s : String) : Bool :=
  let parts := strSplitOnChar '#' s
  decide (parts.length ≥ 2) && !((parts.getLastD "").toList.contains '/')

/-- Character-list scan: drop everything up to and including the first `c`,
or `none` when `c` does not occur. -/
def dropThroughChar (c : Char) : List Char → Option (List Char)
  | [] => none
  | x :: tl => if x == c then some tl else dropThroughChar c tl

/-- Regex 7 of the ignore patterns: a question mark, then an
equals sign, then the word, in that order somewhere in the lower-cased text.
Taking the first question mark and the first equals sign after it maximises
the remaining search space, so this is equivalent to the existence of a
regex match. -/
def queryJsPattern (s : String) : Bool :=
  match dropThroughChar '?' (strLower s).toList with
  | none => false
  | some r1 =>
    match dropThroughChar '=' r1 with
    | none => false
    | some r2 => listContainsSub r2 ("javascript".toList)

/-- `matchesIgnorePatterns(url)` (FilterManager.js:284): the seven fixed
regexes, in constructor order. -/
def matchesIgnorePatterns (s : String) : Bool :=
  ignoreExtPattern s || strContainsCI s "javascript:" || strContainsCI s "mailto:" ||
  strContainsCI s "tel:" || strStartsWith s "#" || anchorOnlyPattern s || queryJsPattern s

/-- `isDomainAllowed(hostname)` (FilterManager.js:249): blocked substrings
reject first; a configured allow-list must match; else the stay-on-domain
rule against the seed host; else allow.  A missing or unparseable seed URL
ends in `return true` on both source paths. -/
def isDomainAllowed (cfg : FilterConfig) (hostname : String) : Bool :=
  let domain := strLower hostname
  if cfg.blockedDomains.any (fun b => strContainsSub domain (strLower b)) then false
  else if !cfg.allowedDomains.isEmpty then
    cfg.allowedDomains.any (fun a => strContainsSub domain (strLower a))
  else if cfg.stayOnDomain then
    match cfg.startUrl with
    | none => true
    | some su =>
      let startDomain := strLower su.hostname
      domain == startDomain || strEndsWith domain ("." ++ startDomain)
  else true

/-- `shouldCrawlUrl(url)` (FilterManager.js:59): http(s) scheme, domain
policy, and none of the ignore patterns. -/
def shouldCrawlUrl (cfg : FilterConfig) (u : Url) : Bool :=
  (u.protocol == "http:" || u.protocol == "https:") &&
  isDomainAllowed cfg u.hostname &&
  !matchesIgnorePatterns (urlToString u)

/-- The extension-specific document patterns of `isDocumentUrl`
(FilterManager.js:120-132).  Each source regex ends in an optional
character class, so an unanchored match exists iff the text holds the
mandatory part: the dotted extension stem. -/
def extDocPatterns (exts : List String) (s : String) : Bool :=
  (exts.contains "pdf" && strContainsCI s ".pdf") ||
  ((exts.contains "doc" || exts.contains "docx") && strContainsCI s ".doc") ||
  ((exts.contains "xls" || exts.contains "xlsx") && strContainsCI s ".xls") ||
  ((exts.contains "ppt" || exts.contains "pptx") && strContainsCI s ".ppt")

/-- The generic download-route patterns of `isDocumentUrl`
(FilterManager.js:135-140), pushed whenever the extension set is nonempty. -/
def downloadRoutePatterns (s : String) : Bool :=
  strContainsCI s "/download/" || strContainsCI s "/file/" ||
  strContainsCI s "/document/" || strContainsCI s "/attachment/" ||
  [ "?file=", "&file=", "?download=", "&download=",
    "?attachment=", "&attachment=" ].any (fun p => strContainsCI s p)

/-- `isDocumentUrl(url)` (FilterManager.js:103): false when the whitelist is
empty; else the pathname's last dot-segment against the whitelist, then the
pattern lists against the whole URL string.  JS `pathname.split('.').pop()`
is the last segment (the whole pathname when it holds no dot); the
`extension &&` guard skips only the empty string. -/
def isDocumentUrl (cfg : FilterConfig) (u : Url) : Bool :=
  let exts := documentExtensions cfg
  if exts.isEmpty then false
  else
    let pathname := strLower u.pathname
    let extension := (strSplitOnChar '.' pathname).getLastD ""
    if !extension.isEmpty && exts.contains extension then true
    else
      let s := urlToString u
      extDocPatterns exts s || downloadRoutePatterns s

/-- The content-type whitelist `isDocumentType` assembles from the configured
extensions (FilterManager.js:164-215). -/
def allowedMimeTypes (cfg : FilterConfig) : List String :=
  let exts := documentExtensions cfg
  (if exts.contains "pdf" then ["application/pdf"] else []) ++
  (if exts.contains "doc" then ["application/msword"] else []) ++
  (if exts.contains "docx" then
    ["application/vnd.openxmlformats-officedocument.wordprocessingml.document"] else []) ++
  (if exts.contains "xls" then ["application/vnd.ms-excel"] else []) ++
  (if exts.contains "xlsx" then
    ["application/vnd.openxmlformats-officedocument.spreadsheetml.sheet"] else []) ++
  (if exts.contains "ppt" then ["application/vnd.ms-powerpoint"] else []) ++
  (if exts.contains "pptx" then
    ["application/vnd.openxmlformats-officedocument.presentationml.presentation"] else []) ++
  (if exts.contains "txt" then ["text/plain"] else []) ++
  (if exts.contains "csv" then ["text/csv"] else []) ++
  (if exts.contains "json" then ["application/json"] else []) ++
  (if exts.contains "xml" then ["application/xml", "text/xml"] else []) ++
  (if exts.contains "jpg" || exts.contains "jpeg" then ["image/jpeg", "image/jpg"] else []) ++
  (if exts.contains "png" then ["image/png"] else []) ++
  (if exts.contains "gif" then ["image/gif"] else []) ++
  (if exts.contains "webp" then ["image/webp"] else []) ++
  (if exts.contains "svg" then ["image/svg+xml"] else [])

/-- `isDocumentType(url, contentType)` (FilterManager.js:151): false when the
whitelist is empty; a falsy content type (absent or the empty string) falls
back to `isDocumentUrl`; else the bare mime type against the assembled
whitelist. -/
def isDocumentType (cfg : FilterConfig) (u : Url) (contentType : Option String) : Bool :=
  if (documentExtensions cfg).isEmpty then false
  else
    match contentType with
    | none => isDocumentUrl cfg u
    | some ct =>
      if ct.toList.isEmpty then isDocumentUrl cfg u
      else
        let mimeType := strLower (strTrim ((strSplitOnChar ';' ct).headD ""))
        (allowedMimeTypes cfg).contains mimeType

/-- `shouldFollowLink(url)` (FilterManager.js:87): crawlable and not a
document. -/
def shouldFollowLink (cfg : FilterConfig) (u : Url) : Bool :=
  if !shouldCrawlUrl cfg u then false
  else if isDocumentUrl cfg u then false
  else true

/-- `isFileSizeAllowed(size)` (FilterManager.js:291).  The argument is either
absent (`undefined`/`null`, here `none`) or a number (`some n`; the callers
pass integral content lengths).  `if (!size) return true` is JS falsiness:
true for absent values and for the number `0`; `parseInt` of an integral
number is that number, so the `isNaN` guard never fires on `some n`. -/
def isFileSizeAllowed (cfg : FilterConfig) (size : Option Int) : Bool :=
  match size with
  | none => true
  | some n =>
    if n == 0 then true
    else decide (cfg.minFileSize ≤ n) && decide (n ≤ cfg.maxFileSize)

/-! ## Example configurations and URLs for witnesses and counterexamples -/

/-- A session configuration with an empty `allowedFileTypes` whitelist. -/
def cfgEmptyTypes : FilterConfig :=
  { allowedFileTypes := [], blockedDomains := [], allowedDomains := [],
    stayOnDomain := false, startUrl := none, minFileSize := 0,
    maxFileSize := 10485760, savePageContent := false }

/-- A session configuration allowing PDF documents with a positive minimum
file size. -/
def cfgPdfMinOne : FilterConfig :=
  { allowedFileTypes := ["pdf"], blockedDomains := [], allowedDomains := [],
    stayOnDomain := false, startUrl := none, minFileSize := 1,
    maxFileSize := 100, savePageContent := false }

def urlPdfPlain : Url :=
  { protocol := "https:", hostname := "example.com", pathname := "/report.pdf",
    search := [], hash := "" }

/-! ## C6 and C7 -/

/-- C6: for every URL and every optional content type, if the configured
`allowedFileTypes` set is empty then `isDocumentUrl` and `isDocumentType`
both return false, regardless of the URL's extension or of the content
type. -/
theorem C6_empty_whitelist_never_document (cfg : FilterConfig) (u : Url)
    (c : Option String) (h : cfg.allowedFileTypes = []) :
    isDocumentUrl cfg u = false ∧ isDocumentType cfg u c = false := by
  have hd : documentExtensions cfg = [] := by
    simp [documentExtensions, h, jsSetOfList]
  exact ⟨by simp [isDocumentUrl, hd], by simp [isDocumentType, hd]⟩

/-- Witness for C6 at a concrete configuration, a URL with a `.pdf`
extension, and a PDF content type. -/
theorem C6_empty_whitelist_never_document_witness :
    cfgEmptyTypes.allowedFileTypes = [] ∧
    (isDocumentUrl cfgEmptyTypes urlPdfPlain = false ∧
     isDocumentType cfgEmptyTypes urlPdfPlain (some "application/pdf") = false) :=
  ⟨rfl, C6_empty_whitelist_never_document cfgEmptyTypes urlPdfPlain
    (some "application/pdf") rfl⟩

/-- C7 counterexample: the claim asserts that for every known size `s` the
check returns true iff `minFileSize ≤ s ≤ maxFileSize`; at the known size
`0` under `minFileSize = 1` the code returns true although the bound check
fails, because `if (!size) return true` also fires on the falsy number 0. -/
theorem C7_counterexample_size_zero :
    isFileSizeAllowed cfgPdfMinOne (some 0) = true ∧
    ¬(cfgPdfMinOne.minFileSize ≤ (0 : Int) ∧ (0 : Int) ≤ cfgPdfMinOne.maxFileSize) :=
  ⟨rfl, by decide⟩

/-- C7 amended: `isFileSizeAllowed` returns true when the size is unknown
and also when the known size is 0 (JS falsiness); for every known nonzero
size `n` it returns true iff `minFileSize ≤ n ≤ maxFileSize`. -/
theorem C7_size_allowed (cfg : FilterConfig) (n : Int) (h : n ≠ 0) :
    isFileSizeAllowed cfg none = true ∧
    isFileSizeAllowed cfg (some 0) = true ∧
    (isFileSizeAllowed cfg (some n) = true ↔
      cfg.minFileSize ≤ n ∧ n ≤ cfg.maxFileSize) := by
  refine ⟨rfl, rfl, ?_⟩
  simp [isFileSizeAllowed, h]

/-- Witness for C7 at the concrete size 5 under bounds 1..100. -/
theorem C7_size_allowed_witness :
    (5 : Int) ≠ 0 ∧
    (isFileSizeAllowed cfgPdfMinOne none = true ∧
     isFileSizeAllowed cfgPdfMinOne (some 0) = true ∧
     (isFileSizeAllowed cfgPdfMinOne (some 5) = true ↔
       cfgPdfMinOne.minFileSize ≤ 5 ∧ (5 : Int) ≤ cfgPdfMinOne.maxFileSize)) :=
  ⟨by decide, C7_size_allowed cfgPdfMinOne 5 (by decide)⟩

/-! ## UrlQueue (`src/crawler/UrlQueue.js`)

The frontier: a deduplicating priority queue.  `enqueue` rejects seen URLs,
pushes a `FrontierEntry` and re-sorts the array with the comparator of
UrlQueue.js:27 (priority descending, then depth ascending).
`Array.prototype.sort` is a stable sort (ECMAScript 2019; V8 implements
TimSort), and stable sorts with the same comparator agree pointwise, so the
embedding sorts with a stable insertion sort.  The source's `timestamp:
Date.now()` field is never read; the embedding replaces it with a ghost
insertion index `idx` that records insertion order exactly. -/

structure QueueEntry where
  url : Url
  depth : Nat
  priority : Int
  idx : Nat
deriving DecidableEq, Repr

/-- The comparator passed to `sort` in `UrlQueue.enqueue` (UrlQueue.js:27):
`b.priority - a.priority` when priorities differ, else `a.depth - b.depth`. -/
def queueCmp (a b : QueueEntry) : Int :=
  if a.priority = b.priority then (a.depth : Int) - (b.depth : Int)
  else b.priority - a.priority

/-- Stable insert: the new element goes after every element that does not
compare strictly greater — the position a stable sort gives the rightmost
element of a key class. -/
def sortInsert (cmp : α → α → Int) (x : α) : List α → List α
  | [] => [x]
  | y :: ys => if cmp x y < 0 then x :: y :: ys else y :: sortInsert cmp x ys

/-- Stable comparator sort (insertion sort, processing left to right). -/
def jsSortStable (cmp : α → α → Int) (l : List α) : List α :=
  l.foldl (fun acc x => sortInsert cmp x acc) []

structure UrlQueueState where
  queue : List QueueEntry
  seen : List Url
  nextIdx : Nat
deriving Repr

def emptyQueue : UrlQueueState := ⟨[], [], 0⟩

/-- `UrlQueue.enqueue(url, depth, priority = 0)` (UrlQueue.js:13): returns
false and changes nothing when the URL was ever enqueued; else records it in
the seen set, pushes the entry and stably re-sorts the queue. -/
def enqueue (st : UrlQueueState) (url : Url) (depth : Nat) (priority : Int) :
    Bool × UrlQueueState :=
  if st.seen.contains url then (false, st)
  else
    (true,
     { queue := jsSortStable queueCmp
         (st.queue ++ [{ url := url, depth := depth, priority := priority,
                         idx := st.nextIdx }]),
       seen := st.seen ++ [url],
       nextIdx := st.nextIdx + 1 })

/-- `UrlQueue.dequeue()` (UrlQueue.js:40): `Array.prototype.shift`, i.e. the
head of the array (`undefined` on an empty queue). -/
def dequeue (st : UrlQueueState) : Option QueueEntry × UrlQueueState :=
  match st.queue with
  | [] => (none, st)
  | e :: rest => (some e, { st with queue := rest })

def queueSize (st : UrlQueueState) : Nat := st.queue.length

def queueIsEmpty (st : UrlQueueState) : Bool := st.queue.isEmpty

/-- The order the claim describes on frontier entries: descending priority,
ties broken by ascending depth, equal `(priority, depth)` keys by insertion
order. -/
def entryLE (a b : QueueEntry) : Prop :=
  a.priority > b.priority ∨
  (a.priority = b.priority ∧ a.depth < b.depth) ∨
  (a.priority = b.priority ∧ a.depth = b.depth ∧ a.idx ≤ b.idx)

theorem queueCmp_lt_iff (a b : QueueEntry) :
    queueCmp a b < 0 ↔
      a.priority > b.priority ∨ (a.priority = b.priority ∧ a.depth < b.depth) := by
  rw [queueCmp]
  split_ifs with h <;> omega

theorem queueCmp_eq_iff (a b : QueueEntry) :
    queueCmp a b = 0 ↔ a.priority = b.priority ∧ a.depth = b.depth := by
  rw [queueCmp]
  split_ifs with h <;> omega

theorem entryLE_iff (a b : QueueEntry) :
    entryLE a b ↔ queueCmp a b < 0 ∨ (queueCmp a b = 0 ∧ a.idx ≤ b.idx) := by
  rw [entryLE, queueCmp_lt_iff, queueCmp_eq_iff]
  tauto

theorem queueCmp_neg (a b : QueueEntry) : queueCmp a b = -queueCmp b a := by
  rw [queueCmp, queueCmp]
  split_ifs with h1 h2 h2 <;> omega

theorem queueCmp_lt_trans_left {a b c : QueueEntry}
    (h1 : queueCmp a b < 0) (h2 : queueCmp b c ≤ 0) : queueCmp a c < 0 := by
  rw [queueCmp_lt_iff] at h1 ⊢
  rcases le_iff_lt_or_eq.mp h2 with h2 | h2
  · rw [queueCmp_lt_iff] at h2
    rcases h1 with h1 | ⟨he1, hd1⟩ <;> rcases h2 with h2 | ⟨he2, hd2⟩
    · exact Or.inl (h2.trans h1)
    · exact Or.inl (he2 ▸ h1)
    · exact Or.inl (he1 ▸ h2)
    · exact Or.inr ⟨he1.trans he2, hd1.trans hd2⟩
  · rw [queueCmp_eq_iff] at h2
    rcases h1 with h1 | ⟨he1, hd1⟩
    · exact Or.inl (h2.1 ▸ h1)
    · exact Or.inr ⟨he1.trans h2.1, h2.2 ▸ hd1⟩

theorem entryLE_of_lt_of_le {a b c : QueueEntry}
    (h1 : queueCmp a b < 0) (h2 : entryLE b c) : entryLE a c := by
  rw [entryLE_iff] at h2 ⊢
  refine Or.inl ?_
  rcases h2 with h2 | ⟨h2, _⟩
  · exact queueCmp_lt_trans_left h1 h2.le
  · exact queueCmp_lt_trans_left h1 h2.le

theorem mem_sortInsert (x z : QueueEntry) (l : List QueueEntry) :
    z ∈ sortInsert queueCmp x l ↔ z = x ∨ z ∈ l := by
  induction l with
  | nil => simp [sortInsert]
  | cons y ys ih =>
    by_cases h : queueCmp x y < 0
    · simp [sortInsert, h]
    · simp [sortInsert, h, ih]
      tauto

/-- Inserting a fresh (maximal-index) entry into a sorted queue keeps it
sorted. -/
theorem sortInsert_pairwise (x : QueueEntry) (l : List QueueEntry)
    (hs : l.Pairwise entryLE) (hf : ∀ y ∈ l, y.idx < x.idx) :
    (sortInsert queueCmp x l).Pairwise entryLE := by
  induction l with
  | nil => simp [sortInsert]
  | cons y ys ih =>
    rcases List.pairwise_cons.mp hs with ⟨hy, hys⟩
    by_cases h : queueCmp x y < 0
    · rw [sortInsert, if_pos h]
      refine List.pairwise_cons.mpr ⟨?_, hs⟩
      intro z hz
      rcases List.mem_cons.mp hz with hz | hz
      · subst hz
        exact (entryLE_iff x z).mpr (Or.inl h)
      · exact entryLE_of_lt_of_le h (hy z hz)
    · rw [sortInsert, if_neg h]
      refine List.pairwise_cons.mpr ⟨?_, ih hys (fun z hz => hf z (List.mem_cons_of_mem y hz))⟩
      intro z hz
      rcases (mem_sortInsert x z ys).mp hz with hz | hz
      · subst hz
        rw [entryLE_iff]
        have hyx := queueCmp_neg y z
        rcases lt_trichotomy (queueCmp y z) 0 with hc | hc | hc
        · exact Or.inl hc
        · exact Or.inr ⟨hc, (hf y (List.mem_cons_self y ys)).le⟩
        · exact absurd (by omega : queueCmp z y < 0) h
      · exact hy z hz

/-- An element due after everything in the list is inserted at the end. -/
theorem sortInsert_append (x : QueueEntry) (l : List QueueEntry)
    (h : ∀ y ∈ l, ¬ queueCmp x y < 0) :
    sortInsert queueCmp x l = l ++ [x] := by
  induction l with
  | nil => rfl
  | cons y ys ih =>
    rw [sortInsert, if_neg (h y (List.mem_cons_self y ys))]
    simp [ih (fun z hz => h z (List.mem_cons_of_mem y hz))]

/-- A sorted queue is a fixed point of the stable sort. -/
theorem jsSortStable_sorted_id (l : List QueueEntry) (hs : l.Pairwise entryLE) :
    jsSortStable queueCmp l = l := by
  induction l using List.reverseRecOn with
  | nil => rfl
  | append_singleton ys x ih =>
    rcases List.pairwise_append.mp hs with ⟨hys, _, hcross⟩
    rw [jsSortStable, List.foldl_append, List.foldl_cons, List.foldl_nil]
    rw [show List.foldl (fun acc z => sortInsert queueCmp z acc) [] ys
          = jsSortStable queueCmp ys from rfl, ih hys]
    apply sortInsert_append
    intro y hy
    have hle := hcross y hy x (List.mem_singleton_self x)
    rw [entryLE_iff] at hle
    have := queueCmp_neg x y
    rcases hle with hle | ⟨hle, _⟩ <;> omega

/-- The state invariant of the frontier: sorted queue, all indices below the
next fresh index. -/
def QueueInv (st : UrlQueueState) : Prop :=
  st.queue.Pairwise entryLE ∧ ∀ e ∈ st.queue, e.idx < st.nextIdx

theorem enqueue_preserves_inv (st : UrlQueueState) (u : Url) (d : Nat) (p : Int)
    (h : QueueInv st) : QueueInv (enqueue st u d p).2 := by
  rcases h with ⟨hs, hidx⟩
  rw [enqueue]
  by_cases hc : st.seen.contains u
  · simp only [hc, if_pos]
    exact ⟨hs, hidx⟩
  · simp only [hc, if_neg, Bool.false_eq_true, not_false_iff]
    set x : QueueEntry := { url := u, depth := d, priority := p, idx := st.nextIdx } with hx
    have hsorted : jsSortStable queueCmp (st.queue ++ [x])
        = sortInsert queueCmp x st.queue := by
      rw [jsSortStable, List.foldl_append, List.foldl_cons, List.foldl_nil]
      rw [show List.foldl (fun acc z => sortInsert queueCmp z acc) [] st.queue
            = jsSortStable queueCmp st.queue from rfl]
      rw [jsSortStable_sorted_id st.queue hs]
    constructor
    · simpa [hsorted] using sortInsert_pairwise x st.queue hs hidx
    · intro e he
      simp only [hsorted] at he
      rcases (mem_sortInsert x e st.queue).mp he with he | he
      · subst he; simp
      · exact Nat.lt_succ_of_lt (hidx e he)

/-- Run a sequence of `(url, depth, priority)` enqueue requests from the
empty frontier. -/
def runEnqueues (ops : List (Url × Nat × Int)) : UrlQueueState :=
  ops.foldl (fun st op => (enqueue st op.1 op.2.1 op.2.2).2) emptyQueue

theorem runEnqueues_inv (ops : List (Url × Nat × Int)) : QueueInv (runEnqueues ops) := by
  rw [runEnqueues]
  have h : QueueInv emptyQueue := ⟨List.Pairwise.nil, by simp [emptyQueue]⟩
  generalize emptyQueue = st at h ⊢
  induction ops generalizing st with
  | nil => exact h
  | cons op tl ih => exact ih _ (enqueue_preserves_inv st op.1 op.2.1 op.2.2 h)

/-- C5: after every sequence of enqueue operations the frontier is ordered
by descending priority, ties by ascending depth, equal `(priority, depth)`
keys in insertion order; and `dequeue` returns the queue head and keeps the
tail, so successive dequeues produce the entries in exactly that order. -/
theorem C5_dequeue_priority_order (ops : List (Url × Nat × Int)) :
    (runEnqueues ops).queue.Pairwise entryLE ∧
    ∀ st : UrlQueueState,
      (dequeue st).1 = st.queue.head? ∧ (dequeue st).2.queue = st.queue.tail := by
  refine ⟨(runEnqueues_inv ops).1, ?_⟩
  intro st
  cases h : st.queue with
  | nil => simp [dequeue, h]
  | cons e rest => simp [dequeue, h]

/-! ## SpongeCrawler (`src/crawler/SpongeCrawler.js`)

The orchestrator.  The embedding models an HTML response as the element data
the crawler extracts from it with cheerio: the raw `href` attributes of the
anchors and the raw attributes the embed selectors of
`findEmbeddedDocuments` read.  Relative-reference resolution (`new URL(href,
base)`, returning `none` where the constructor throws) and the HTTP fetch
are oracles in `CrawlEnv`.  The crawl loop awaits each dispatched task
(`await this.concurrencyLimit(...)`, SpongeCrawler.js:158), so iterations
run sequentially and the loop is a sequential state transformer; the
wall-clock timeout break is subsumed by the fuel parameter of `crawlLoop`
(both only stop the loop early). -/

/-- The element data cheerio extraction yields from an HTML body: one list
per selector of `processHtmlPage` and `findEmbeddedDocuments`. -/
structure Page where
  anchorHrefs : List String
  imgSrcs : List String
  iframeSrcs : List String
  embedSrcs : List String
  objectDatas : List String
  sourceSrcs : List String
deriving Repr

def emptyPage : Page := ⟨[], [], [], [], [], []⟩

/-- Outcome of `this.httpClient.get(url)`: a thrown network error (axios
throws on transport failure and on status ≥ 500 under `validateStatus`), or
a response with status < 500, its `content-type` header (the empty string
when absent, after `|| ''`), the extracted page data, and the parsed
`content-length` header. -/
inductive FetchResult
  | netErr (msg : String)
  | ok (status : Nat) (contentType : String) (page : Page) (contentLength : Option Int)
deriving Repr

structure CrawlEnv where
  fetch : Url → FetchResult
  /-- `new URL(href, base)`: `none` when the constructor throws. -/
  resolve : Url → String → Option Url
  /-- The boolean the Promise of `RobotsChecker.isAllowed(url)` eventually
  resolves to under the loaded robots policy.  `shouldSkipUrl` never awaits
  it — see `unawaitedIsAllowedTruthy`. -/
  robotsAllows : Url → Bool

structure CrawlStats where
  pagesVisited : Nat
  documentsFound : Nat
  documentsDownloaded : Nat
  errors : Nat
  queueSize : Nat
  currentUrl : Option Url
  totalPagesDiscovered : Nat
  paginationDetected : Bool
  estimatedTotalPages : Nat
  aborted : Bool
deriving Repr, DecidableEq

def initStats : CrawlStats :=
  { pagesVisited := 0, documentsFound := 0, documentsDownloaded := 0,
    errors := 0, queueSize := 0, currentUrl := none, totalPagesDiscovered := 0,
    paginationDetected := false, estimatedTotalPages := 0, aborted := false }

/-- A `DiscoveredDocument` value as first registered (SpongeCrawler.js:290,
332, 347): source URL, depth, and for direct document responses the
content type and `content-length`. -/
structure DocMeta where
  sourceUrl : Url
  depth : Nat
  contentType : Option String
  size : Option Int
deriving Repr, DecidableEq

structure CrawlConfig where
  filter : FilterConfig
  startUrl : Url
  maxDepth : Nat
  maxPages : Nat
  respectRobotsTxt : Bool
deriving Repr

structure CrawlState where
  urlQueue : UrlQueueState
  visitedUrls : List Url
  foundDocuments : List (Url × DocMeta)
  /-- `this.errors.length` (the entries carry only log data). -/
  errors : Nat
  stats : CrawlStats
  /-- Ghost log of the accepted frontier insertions `(url, depth)`, in
  order; records every `urlQueue.enqueue` call that returned true. -/
  enqueueLog : List (Url × Nat)
deriving Repr

def initCrawlState : CrawlState :=
  { urlQueue := emptyQueue, visitedUrls := [], foundDocuments := [],
    errors := 0, stats := initStats, enqueueLog := [] }

/-- `this.urlQueue.enqueue(url, depth)` as the crawler calls it (default
priority 0), with the ghost log. -/
def crawlEnqueue (st : CrawlState) (u : Url) (d : Nat) : CrawlState :=
  let r := enqueue st.urlQueue u d 0
  { st with urlQueue := r.2,
            enqueueLog := if r.1 then st.enqueueLog ++ [(u, d)] else st.enqueueLog }

/-- The truthiness of `this.robotsChecker.isAllowed(url)` as `shouldSkipUrl`
reads it: `RobotsChecker.isAllowed` is an `async` method
(RobotsChecker.js:150) and `shouldSkipUrl` (a synchronous method,
SpongeCrawler.js:372) calls it without `await`, so the tested value is a
pending Promise object — truthy in JS whatever boolean it later resolves
to. -/
def unawaitedIsAllowedTruthy : Bool := true

/-- `shouldSkipUrl(url, depth)` (SpongeCrawler.js:359): visited, beyond
depth, filter-rejected, or the (never-firing) robots branch. -/
def shouldSkipUrl (cfg : CrawlConfig) (st : CrawlState) (u : Url) (depth : Nat) : Bool :=
  if st.visitedUrls.contains u then true
  else if depth > cfg.maxDepth then true
  else if !shouldCrawlUrl cfg.filter u then true
  else if cfg.respectRobotsTxt && !unawaitedIsAllowedTruthy then true
  else false

/-- `isPaginationUrl(url)` (SpongeCrawler.js:565): the `page` query
parameter exists and is all digits (an empty parameter is falsy). -/
def isPaginationUrl (u : Url) : Bool :=
  match searchGet u "page" with
  | some p => strAllDigits p
  | none => false

/-- Decimal rendering of a natural number, modelling JS
`Number.prototype.toString` on the loop counter of `detectPagination`. -/
def natToDecAux : Nat → Nat → List Char → List Char
  | 0, _, acc => acc
  | fuel + 1, n, acc =>
    let acc := Char.ofNat (48 + n % 10) :: acc
    if n < 10 then acc else natToDecAux fuel (n / 10) acc

def natToDec (n : Nat) : String := ⟨natToDecAux (n + 1) n []⟩

structure PaginationInfo where
  detected : Bool
  totalPages : Nat
  pageUrls : List Url
deriving Repr

/-- The collection loop of `detectPagination` (SpongeCrawler.js:510-531):
page-number set and pagination-URL list. -/
def collectPagination (links : List Url) (currentUrl : Url) : List Nat × List Url :=
  links.foldl
    (fun (acc : List Nat × List Url) link =>
      if link.hostname == currentUrl.hostname && link.pathname == currentUrl.pathname then
        match searchGet link "page" with
        | some pageParam =>
          if strAllDigits pageParam then
            let pageNum := parseDigits pageParam
            if 0 < pageNum && pageNum ≤ 100 then
              (jsSetAdd acc.1 pageNum, acc.2 ++ [link])
            else acc
          else acc
        | none => acc
      else acc)
    ([], [])

/-- The fill-in loop of `detectPagination` (SpongeCrawler.js:539-548). -/
def fillPagination (currentUrl : Url) (minPage maxPage : Nat)
    (collected : List Url) : List Url :=
  (List.range' minPage (maxPage + 1 - minPage)).foldl
    (fun acc i =>
      let pageUrl : Url :=
        { currentUrl with search := searchSet currentUrl.search "page" (natToDec i) }
      if acc.contains pageUrl then acc else acc ++ [pageUrl])
    collected

/-- `detectPagination(links, currentUrl)` (SpongeCrawler.js:497).  Links on
the same host and path carrying an all-digit `page` parameter in 1..100 are
collected (their page numbers into a set); with at least two distinct
numbers, pagination is detected, and when `max > min + 1` every number from
min to max is filled in (`searchParams.set` on a copy of the current URL,
deduplicated against the collected links).  The source mutates one URL
object across the fill-in loop; since `set` replaces the parameter at a
fixed position, this equals building each URL fresh from `currentUrl`. -/
def detectPagination (links : List Url) (currentUrl : Url) : PaginationInfo :=
  let step := collectPagination links currentUrl
  let pageNumbers := step.1
  let collected := step.2
  if pageNumbers.length ≥ 2 then
    let maxPage := pageNumbers.foldl Nat.max 0
    let minPage := pageNumbers.foldl Nat.min (pageNumbers.headD 0)
    let pageUrls :=
      if maxPage > minPage + 1 then fillPagination currentUrl minPage maxPage collected
      else collected
    { detected := true, totalPages := maxPage, pageUrls := pageUrls }
  else { detected := false, totalPages := 0, pageUrls := [] }

/-- `estimateTotalPages(links)` (SpongeCrawler.js:578): count distinct
followable non-document non-pagination links, add queue size and pages
visited, cap at `maxPages`; record only when above the visited count. -/
def estimateTotalPages (cfg : CrawlConfig) (links : List Url) (st : CrawlState) : CrawlState :=
  let contentPages := jsSetOfList (links.filter (fun l =>
    shouldFollowLink cfg.filter l && !isDocumentUrl cfg.filter l && !isPaginationUrl l))
  let estimatedTotal :=
    Nat.min (contentPages.length + queueSize st.urlQueue + st.stats.pagesVisited) cfg.maxPages
  if st.stats.pagesVisited < estimatedTotal then
    { st with stats := { st.stats with estimatedTotalPages := estimatedTotal } }
  else st

/-- One pass of the link loop of `processHtmlPage` (SpongeCrawler.js:280-301).
Note `shouldFollowLink` is false for every URL `isDocumentUrl` accepts, so
the document-registration branch below, copied faithfully from line 290,
cannot execute. -/
def processLink (cfg : CrawlConfig) (pageUrl : Url) (depth : Nat)
    (st : CrawlState) (link : Url) : CrawlState :=
  let shouldFollow := shouldFollowLink cfg.filter link
  let isVisited := st.visitedUrls.contains link
  let isDocument := isDocumentUrl cfg.filter link
  if shouldFollow && !isVisited then
    if isDocument then
      { st with
        foundDocuments := jsMapSet st.foundDocuments link
          { sourceUrl := pageUrl, depth := depth, contentType := none, size := none },
        stats := { st.stats with documentsFound := st.stats.documentsFound + 1 } }
    else if depth < cfg.maxDepth then
      if !st.stats.paginationDetected || !isPaginationUrl link then
        crawlEnqueue st link (depth + 1)
      else st
    else st
  else st

/-- The elements `findEmbeddedDocuments` (SpongeCrawler.js:310) visits, in
selector order, each as the one attribute the selector makes
`src || data || href` read. -/
def embedCandidates (page : Page) : List String :=
  page.imgSrcs ++ page.iframeSrcs ++ page.embedSrcs ++ page.objectDatas ++
  page.sourceSrcs ++
  page.anchorHrefs.filter (fun h => strEndsWith h ".pdf") ++
  page.anchorHrefs.filter (fun h => strEndsWith h ".doc") ++
  page.anchorHrefs.filter (fun h => strEndsWith h ".docx") ++
  page.anchorHrefs.filter (fun h => strEndsWith h ".xls") ++
  page.anchorHrefs.filter (fun h => strEndsWith h ".xlsx")

/-- `findEmbeddedDocuments($, url, depth)` (SpongeCrawler.js:310): each
resolvable candidate that is a document URL and not yet in the map is
registered. -/
def findEmbeddedDocuments (cfg : CrawlConfig) (env : CrawlEnv) (pageUrl : Url)
    (page : Page) (depth : Nat) (st : CrawlState) : CrawlState :=
  (embedCandidates page).foldl
    (fun st src =>
      if src.toList.isEmpty then st
      else
        match env.resolve pageUrl src with
        | none => st
        | some u =>
          if isDocumentUrl cfg.filter u && !jsMapHas st.foundDocuments u then
            { st with
              foundDocuments := jsMapSet st.foundDocuments u
                { sourceUrl := pageUrl, depth := depth, contentType := none, size := none },
              stats := { st.stats with documentsFound := st.stats.documentsFound + 1 } }
          else st)
    st

/-- The root-page pagination block of `processHtmlPage`
(SpongeCrawler.js:259-273): at depth 0, before any detection, run
`detectPagination` once; on detection set the stats flags and enqueue every
discovered page URL that is not yet visited at `depth + 1` (no `maxDepth`
check on this path). -/
def paginationStage (links : List Url) (pageUrl : Url) (depth : Nat)
    (st : CrawlState) : CrawlState :=
  if depth == 0 && !st.stats.paginationDetected then
    let info := detectPagination links pageUrl
    if info.detected then
      info.pageUrls.foldl
        (fun st pu => if !st.visitedUrls.contains pu then crawlEnqueue st pu (depth + 1) else st)
        { st with stats := { st.stats with
            paginationDetected := true, totalPagesDiscovered := info.totalPages } }
    else st
  else st

/-- The estimate block of `processHtmlPage` (SpongeCrawler.js:276-278). -/
def estimateStage (cfg : CrawlConfig) (links : List Url) (st : CrawlState) : CrawlState :=
  if st.stats.paginationDetected && decide (st.stats.pagesVisited ≥ 5) &&
      st.stats.estimatedTotalPages == 0 then
    estimateTotalPages cfg links st
  else st

/-- `processHtmlPage(url, html, depth)` (SpongeCrawler.js:223).  Page-content
saving (line 228) writes through the downloader to the filesystem and logs;
it reads no crawler state and writes none, so it does not appear in the
state transformer.  Then: link extraction, one-time root pagination
detection, the post-pagination estimate, the link loop, and the
embedded-document scan, in source order. -/
def processHtmlPage (cfg : CrawlConfig) (env : CrawlEnv) (pageUrl : Url)
    (page : Page) (depth : Nat) (st : CrawlState) : CrawlState :=
  let links := page.anchorHrefs.filterMap (env.resolve pageUrl)
  findEmbeddedDocuments cfg env pageUrl page depth
    (links.foldl (processLink cfg pageUrl depth)
      (estimateStage cfg links (paginationStage links pageUrl depth st)))

/-- `processDocument(url, response, contentType)` (SpongeCrawler.js:346):
unconditional `Map.set` and counter increment. -/
def processDocument (u : Url) (contentType : String)
    (contentLength : Option Int) (st : CrawlState) : CrawlState :=
  { st with
    foundDocuments := jsMapSet st.foundDocuments u
      { sourceUrl := u, depth := 0, contentType := some contentType, size := contentLength },
    stats := { st.stats with documentsFound := st.stats.documentsFound + 1 } }

/-- `handleUrlError(url, error)` (SpongeCrawler.js:403). -/
def handleUrlError (st : CrawlState) : CrawlState :=
  { st with errors := st.errors + 1,
            stats := { st.stats with errors := st.stats.errors + 1 } }

/-- `processUrl(url, depth)` (SpongeCrawler.js:190): rate limiting is pure
timing; the URL is marked visited and counted before the fetch; then the
response is dispatched on its content type, errors landing in the internal
catch. -/
def processUrl (cfg : CrawlConfig) (env : CrawlEnv) (u : Url) (depth : Nat)
    (st : CrawlState) : CrawlState :=
  let st := { st with
    visitedUrls := jsSetAdd st.visitedUrls u,
    stats := { st.stats with pagesVisited := st.stats.pagesVisited + 1 } }
  match env.fetch u with
  | .netErr _ => handleUrlError st
  | .ok status contentType page contentLength =>
    if status ≥ 400 then handleUrlError st
    else if strContainsSub contentType "text/html" then
      processHtmlPage cfg env u page depth st
    else if isDocumentType cfg.filter u (some contentType) then
      processDocument u contentType contentLength st
    else st

/-- The loop-local variables of `crawl()` alongside the crawler state. -/
structure LoopState where
  st : CrawlState
  noProgressCount : Nat
  lastPageCount : Nat
deriving Repr

inductive StepResult
  | done (ls : LoopState)
  | next (ls : LoopState)
deriving Repr

/-- The stagnation bookkeeping of `crawl()` (SpongeCrawler.js:127-136): on
no progress bump the counter and keep the recorded count, else reset the
counter and record the new page count. -/
def stagnationAdvance (pagesVisited npc lpc : Nat) : Nat × Nat :=
  if pagesVisited == lpc then (npc + 1, lpc) else (0, pagesVisited)

/-- One iteration of the `while` loop of `crawl()` (SpongeCrawler.js:119):
the loop condition, the stagnation guard, the queue-size stat, dequeue, the
skip check, and the dispatched `processUrl`.  `.done` is a loop exit (a
false condition or a `break`), `.next` a completed iteration. -/
def crawlIteration (cfg : CrawlConfig) (env : CrawlEnv) (ls : LoopState) : StepResult :=
  let st := ls.st
  if queueIsEmpty st.urlQueue || decide (st.stats.pagesVisited ≥ cfg.maxPages) ||
      st.stats.aborted then
    .done ls
  else if st.stats.pagesVisited == ls.lastPageCount && decide (ls.noProgressCount + 1 > 10) then
    .done { ls with noProgressCount := ls.noProgressCount + 1 }
  else
    let nl := stagnationAdvance st.stats.pagesVisited ls.noProgressCount ls.lastPageCount
    let npc := nl.1
    let lpc := nl.2
    let st := { st with stats := { st.stats with queueSize := queueSize st.urlQueue } }
    match dequeue st.urlQueue with
    | (none, _) => .done { st := st, noProgressCount := npc, lastPageCount := lpc }
    | (some e, q') =>
      let st := { st with urlQueue := q',
                          stats := { st.stats with currentUrl := some e.url } }
      if shouldSkipUrl cfg st e.url e.depth then
        .next { st := st, noProgressCount := npc, lastPageCount := lpc }
      else
        .next { st := processUrl cfg env e.url e.depth st,
                noProgressCount := npc, lastPageCount := lpc }

/-- The crawl loop, fuel-bounded: `crawlLoop fuel` runs at most `fuel`
iterations, so the family over all fuels enumerates the state at every
point of the loop (the 30-minute timeout break likewise only truncates the
iteration sequence). -/
def crawlLoop (cfg : CrawlConfig) (env : CrawlEnv) : Nat → LoopState → LoopState
  | 0, ls => ls
  | fuel + 1, ls =>
    match crawlIteration cfg env ls with
    | .done ls' => ls'
    | .next ls' => crawlLoop cfg env fuel ls'

/-- The statements after the loop in `crawl()` (SpongeCrawler.js:167-170). -/
def crawlFinish (ls : LoopState) : CrawlState :=
  { ls.st with stats := { ls.st.stats with currentUrl := none, queueSize := 0 } }

/-- `start()` up to the end of `crawl()` (SpongeCrawler.js:74): seed the
frontier with the start URL at depth 0, run the loop.  (Robots loading only
fills the policy cache; export/download run after the crawl.) -/
def startCrawl (cfg : CrawlConfig) (env : CrawlEnv) (fuel : Nat) : CrawlState :=
  let st0 := crawlEnqueue initCrawlState cfg.startUrl 0
  crawlFinish (crawlLoop cfg env fuel { st := st0, noProgressCount := 0, lastPageCount := 0 })

/-- The snapshot `getCurrentStats()` returns (SpongeCrawler.js:178): the
stats record spread, with `documentsFound` overridden by the map's size and
`totalErrors` by the error list's length. -/
structure StatsSnapshot where
  pagesVisited : Nat
  documentsFound : Nat
  documentsDownloaded : Nat
  errors : Nat
  queueSize : Nat
  currentUrl : Option Url
  totalPagesDiscovered : Nat
  paginationDetected : Bool
  estimatedTotalPages : Nat
  aborted : Bool
  totalErrors : Nat
deriving Repr

def getCurrentStats (st : CrawlState) : StatsSnapshot :=
  { pagesVisited := st.stats.pagesVisited,
    documentsFound := st.foundDocuments.length,
    documentsDownloaded := st.stats.documentsDownloaded,
    errors := st.stats.errors,
    queueSize := st.stats.queueSize,
    currentUrl := st.stats.currentUrl,
    totalPagesDiscovered := st.stats.totalPagesDiscovered,
    paginationDetected := st.stats.paginationDetected,
    estimatedTotalPages := st.stats.estimatedTotalPages,
    aborted := st.stats.aborted,
    totalErrors := st.errors }

/-! ## C4: the page budget invariant -/

theorem foldl_fix_pagesVisited {α : Type} (f : CrawlState → α → CrawlState)
    (h : ∀ b a, (f b a).stats.pagesVisited = b.stats.pagesVisited)
    (l : List α) (b : CrawlState) :
    (l.foldl f b).stats.pagesVisited = b.stats.pagesVisited := by
  induction l generalizing b with
  | nil => rfl
  | cons x tl ih => rw [List.foldl_cons, ih, h]

theorem crawlEnqueue_stats (st : CrawlState) (u : Url) (d : Nat) :
    (crawlEnqueue st u d).stats = st.stats := rfl

theorem processLink_pagesVisited (cfg : CrawlConfig) (pu : Url) (d : Nat)
    (st : CrawlState) (l : Url) :
    (processLink cfg pu d st l).stats.pagesVisited = st.stats.pagesVisited := by
  rw [processLink]
  split_ifs <;> simp [crawlEnqueue]

theorem findEmbeddedDocuments_pagesVisited (cfg : CrawlConfig) (env : CrawlEnv)
    (pu : Url) (page : Page) (d : Nat) (st : CrawlState) :
    (findEmbeddedDocuments cfg env pu page d st).stats.pagesVisited
      = st.stats.pagesVisited := by
  rw [findEmbeddedDocuments]
  apply foldl_fix_pagesVisited
  intro b a
  split_ifs with ha
  · rfl
  · cases env.resolve pu a with
    | none => rfl
    | some u =>
      dsimp only
      split_ifs <;> simp

theorem estimateTotalPages_pagesVisited (cfg : CrawlConfig) (links : List Url)
    (st : CrawlState) :
    (estimateTotalPages cfg links st).stats.pagesVisited = st.stats.pagesVisited := by
  rw [estimateTotalPages]
  split_ifs <;> simp

theorem estimateStage_pagesVisited (cfg : CrawlConfig) (links : List Url)
    (st : CrawlState) :
    (estimateStage cfg links st).stats.pagesVisited = st.stats.pagesVisited := by
  rw [estimateStage]
  split_ifs with h
  · exact estimateTotalPages_pagesVisited cfg links st
  · rfl

theorem paginationStage_pagesVisited (links : List Url) (pu : Url) (d : Nat)
    (st : CrawlState) :
    (paginationStage links pu d st).stats.pagesVisited = st.stats.pagesVisited := by
  rw [paginationStage]
  have ha : ∀ (b : CrawlState) (a : Url),
      ((if !b.visitedUrls.contains a then crawlEnqueue b a (d + 1) else b)).stats.pagesVisited
        = b.stats.pagesVisited := by
    intro b a
    split_ifs <;> simp [crawlEnqueue]
  split_ifs with h1
  · dsimp only
    split_ifs with h2
    · rw [foldl_fix_pagesVisited _ ha]
    · rfl
  · rfl

theorem processHtmlPage_pagesVisited (cfg : CrawlConfig) (env : CrawlEnv)
    (pu : Url) (page : Page) (d : Nat) (st : CrawlState) :
    (processHtmlPage cfg env pu page d st).stats.pagesVisited
      = st.stats.pagesVisited := by
  rw [processHtmlPage, findEmbeddedDocuments_pagesVisited]
  rw [foldl_fix_pagesVisited _ (processLink_pagesVisited cfg pu d)]
  rw [estimateStage_pagesVisited, paginationStage_pagesVisited]

theorem processUrl_pagesVisited (cfg : CrawlConfig) (env : CrawlEnv) (u : Url)
    (d : Nat) (st : CrawlState) :
    (processUrl cfg env u d st).stats.pagesVisited = st.stats.pagesVisited + 1 := by
  rw [processUrl]
  cases env.fetch u with
  | netErr m => simp [handleUrlError]
  | ok status ct page cl =>
    dsimp only
    split_ifs <;>
      simp [handleUrlError, processHtmlPage_pagesVisited, processDocument]

def StepResult.state : StepResult → LoopState
  | .done ls => ls
  | .next ls => ls

theorem crawlIteration_budget (cfg : CrawlConfig) (env : CrawlEnv) (ls : LoopState)
    (h : ls.st.stats.pagesVisited ≤ cfg.maxPages) :
    ((crawlIteration cfg env ls).state).st.stats.pagesVisited ≤ cfg.maxPages := by
  rw [crawlIteration]
  split_ifs with h1 h2 <;> try exact h
  all_goals
    have hlt : ls.st.stats.pagesVisited < cfg.maxPages := by
      simp only [Bool.or_eq_true, decide_eq_true_eq, not_or] at h1
      omega
  all_goals dsimp only
  all_goals split
  all_goals try exact h
  all_goals split_ifs with hskip
  all_goals simp only [StepResult.state]
  all_goals try exact h
  all_goals rw [processUrl_pagesVisited]
  all_goals dsimp only
  all_goals omega

theorem crawlLoop_budget (cfg : CrawlConfig) (env : CrawlEnv) (fuel : Nat)
    (ls : LoopState) (h : ls.st.stats.pagesVisited ≤ cfg.maxPages) :
    (crawlLoop cfg env fuel ls).st.stats.pagesVisited ≤ cfg.maxPages := by
  induction fuel generalizing ls with
  | zero => exact h
  | succ n ih =>
    rw [crawlLoop]
    have hstep := crawlIteration_budget cfg env ls h
    cases hit : crawlIteration cfg env ls with
    | done ls' =>
      rw [hit] at hstep
      exact hstep
    | next ls' =>
      rw [hit] at hstep
      exact ih ls' hstep

/-! ## C10: the stats snapshot counts the map, not the counter

The three sites that register a discovered document: the link-loop branch
(SpongeCrawler.js:290) and `processDocument` (:347) call `Map.set` without a
membership check, `findEmbeddedDocuments` (:331) checks `Map.has` first;
all three increment the `stats.documentsFound` counter.  `RegisterOp`
abstracts one registration event of either kind. -/

inductive RegisterOp
  | unguarded (u : Url) (m : DocMeta)
  | guarded (u : Url) (m : DocMeta)
deriving Repr

def applyRegister (st : CrawlState) : RegisterOp → CrawlState
  | .unguarded u m =>
    { st with foundDocuments := jsMapSet st.foundDocuments u m,
              stats := { st.stats with documentsFound := st.stats.documentsFound + 1 } }
  | .guarded u m =>
    if !jsMapHas st.foundDocuments u then
      { st with foundDocuments := jsMapSet st.foundDocuments u m,
                stats := { st.stats with documentsFound := st.stats.documentsFound + 1 } }
    else st

def opUrl : RegisterOp → Url
  | .unguarded u _ => u
  | .guarded u _ => u

theorem mapAny_eq_keysContains (m : List (Url × DocMeta)) (k : Url) :
    m.any (fun p => p.1 == k) = (m.map Prod.fst).contains k := by
  induction m with
  | nil => rfl
  | cons p tl ih =>
    simp only [List.any_cons, List.map_cons, List.contains_cons, ih]
    by_cases h : p.1 = k
    · simp [h, beq_iff_eq, eq_comm]
    · have h' : ¬ k = p.1 := fun he => h he.symm
      simp [beq_iff_eq, h, h']
      rw [Bool.beq_comm]

theorem map_replace_keys (m : List (Url × DocMeta)) (k : Url) (v : DocMeta) :
    (m.map (fun p => if p.1 == k then (k, v) else p)).map Prod.fst
      = m.map Prod.fst := by
  induction m with
  | nil => rfl
  | cons p tl ih =>
    simp only [List.map_cons, ih, List.cons.injEq, and_true]
    by_cases h : p.1 == k
    · simp only [h, if_pos]
      exact (eq_of_beq h).symm
    · simp [h]

/-- `Map.set` acts on the key list as `Set.add`. -/
theorem jsMapSet_keys (m : List (Url × DocMeta)) (k : Url) (v : DocMeta) :
    (jsMapSet m k v).map Prod.fst = jsSetAdd (m.map Prod.fst) k := by
  rw [jsMapSet, jsSetAdd, ← mapAny_eq_keysContains]
  split_ifs with h
  · exact map_replace_keys m k v
  · simp

theorem applyRegister_keys (st : CrawlState) (op : RegisterOp) :
    (applyRegister st op).foundDocuments.map Prod.fst
      = jsSetAdd (st.foundDocuments.map Prod.fst) (opUrl op) := by
  cases op with
  | unguarded u m => exact jsMapSet_keys _ u m
  | guarded u m =>
    rw [applyRegister]
    split_ifs with h
    · exact jsMapSet_keys _ u m
    · rw [jsSetAdd, ← mapAny_eq_keysContains, if_pos]
      simpa [jsMapHas] using h

theorem foldl_register_keys (ops : List RegisterOp) (st : CrawlState) :
    (ops.foldl applyRegister st).foundDocuments.map Prod.fst
      = (ops.map opUrl).foldl jsSetAdd (st.foundDocuments.map Prod.fst) := by
  induction ops generalizing st with
  | nil => rfl
  | cons op tl ih =>
    rw [List.foldl_cons, List.map_cons, List.foldl_cons, ih, applyRegister_keys]

theorem jsSetAdd_nodup (l : List Url) (h : l.Nodup) (x : Url) :
    (jsSetAdd l x).Nodup := by
  rw [jsSetAdd]
  split_ifs with hc
  · exact h
  · have hx : x ∉ l := by
      intro hm
      rw [List.contains, List.elem_iff] at hc
      · exact absurd hm hc
    simp [List.nodup_append, h, hx]

theorem foldl_jsSetAdd_nodup (l acc : List Url) (h : acc.Nodup) :
    (l.foldl jsSetAdd acc).Nodup := by
  induction l generalizing acc with
  | nil => exact h
  | cons x tl ih => exact ih (jsSetAdd acc x) (jsSetAdd_nodup acc h x)

def urlRootC10 : Url :=
  { protocol := "https:", hostname := "example.com", pathname := "/",
    search := [], hash := "" }

def docMetaEx : DocMeta :=
  { sourceUrl := urlRootC10, depth := 0, contentType := none, size := none }

/-- Two unguarded registrations of one URL (the `processDocument` pattern). -/
def doubleRegister : List RegisterOp :=
  [.unguarded urlRootC10 docMetaEx, .unguarded urlRootC10 docMetaEx]

/-- C10: every `getCurrentStats` snapshot reports `documentsFound` as the
size of the discovered-documents map — the number of distinct registered
URLs, the map's keys being duplicate-free — whatever sequence of
registrations ran; the internal counter can drift (two unguarded
registrations of one URL leave the counter at 2 while the snapshot reports
1). -/
theorem C10_snapshot_counts_map (ops : List RegisterOp) :
    (getCurrentStats (ops.foldl applyRegister initCrawlState)).documentsFound
      = (jsSetOfList (ops.map opUrl)).length ∧
    ((ops.foldl applyRegister initCrawlState).foundDocuments.map Prod.fst).Nodup ∧
    ((getCurrentStats (doubleRegister.foldl applyRegister initCrawlState)).documentsFound = 1 ∧
     (doubleRegister.foldl applyRegister initCrawlState).stats.documentsFound = 2) := by
  refine ⟨?_, ?_, by rfl, by rfl⟩
  · show (ops.foldl applyRegister initCrawlState).foundDocuments.length = _
    rw [← List.length_map _ Prod.fst, foldl_register_keys]
    rfl
  · rw [foldl_register_keys]
    exact foldl_jsSetAdd_nodup _ _ List.nodup_nil

/-! ## C3: helper lemmas — every URL pagination detection produces carries
an all-digit `page` parameter -/

theorem searchSet_find (ps : List (String × String)) (k v : String) :
    (searchSet ps k v).find? (fun p => p.1 == k) = some (k, v) := by
  induction ps with
  | nil => simp [searchSet]
  | cons p tl ih =>
    rw [searchSet]
    by_cases h : p.1 == k
    · simp [h]
    · rw [if_neg h, List.find?]
      simp only [h]
      exact ih

theorem forall_lt_ten_digit : ∀ k, k < 10 → (Char.ofNat (48 + k)).isDigit = true := by
  decide

theorem natToDecAux_digits (fuel : Nat) : ∀ (n : Nat) (acc : List Char),
    acc.all (fun c => c.isDigit) = true →
    (natToDecAux fuel n acc).all (fun c => c.isDigit) = true ∧
      (natToDecAux fuel n acc).length ≥ acc.length + min fuel 1 := by
  induction fuel with
  | zero => intro n acc h; exact ⟨h, by simp [natToDecAux]⟩
  | succ m ih =>
    intro n acc h
    rw [natToDecAux]
    have hd : (Char.ofNat (48 + n % 10)).isDigit = true :=
      forall_lt_ten_digit (n % 10) (Nat.mod_lt n (by omega))
    have hacc : ((Char.ofNat (48 + n % 10) :: acc).all (fun c => c.isDigit)) = true := by
      simp only [List.all_cons, hd, h, Bool.and_self]
    by_cases hn : n < 10
    · simp only [hn, if_pos]
      refine ⟨hacc, ?_⟩
      simp only [List.length_cons]
      omega
    · simp only [hn, if_neg, Bool.false_eq_true, not_false_iff]
      have hih := ih (n / 10) (Char.ofNat (48 + n % 10) :: acc) hacc
      refine ⟨hih.1, ?_⟩
      have h2 := hih.2
      simp only [List.length_cons] at h2 ⊢
      omega

theorem natToDec_allDigits (n : Nat) : strAllDigits (natToDec n) = true := by
  have h := natToDecAux_digits (n + 1) n [] (by simp)
  rw [strAllDigits, natToDec]
  rcases hl : natToDecAux (n + 1) n [] with _ | ⟨c, tl⟩
  · rw [hl] at h
    have := h.2
    simp at this
  · rw [hl] at h
    simpa using h.1

theorem collectPagination_snd (links : List Url) (cu : Url) :
    ∀ p ∈ (collectPagination links cu).2, isPaginationUrl p = true := by
  rw [collectPagination]
  have hstep : ∀ (ls : List Url) (acc : List Nat × List Url),
      (∀ p ∈ acc.2, isPaginationUrl p = true) →
      ∀ p ∈ (ls.foldl (fun (acc : List Nat × List Url) link =>
        if link.hostname == cu.hostname && link.pathname == cu.pathname then
          match searchGet link "page" with
          | some pageParam =>
            if strAllDigits pageParam then
              let pageNum := parseDigits pageParam
              if 0 < pageNum && pageNum ≤ 100 then
                (jsSetAdd acc.1 pageNum, acc.2 ++ [link])
              else acc
            else acc
          | none => acc
        else acc) acc).2, isPaginationUrl p = true := by
    intro ls
    induction ls with
    | nil => intro acc h; exact h
    | cons l tl ih =>
      intro acc h
      rw [List.foldl_cons]
      apply ih
      by_cases h1 : l.hostname == cu.hostname && l.pathname == cu.pathname
      · simp only [h1, if_pos]
        rcases hg : searchGet l "page" with _ | pageParam
        · exact h
        · dsimp only
          by_cases h2 : strAllDigits pageParam
          · simp only [h2, if_pos]
            by_cases h3 : 0 < parseDigits pageParam && parseDigits pageParam ≤ 100
            · simp only [h3, if_pos]
              intro p hp
              rcases List.mem_append.mp hp with hp | hp
              · exact h p hp
              · obtain rfl := List.mem_singleton.mp hp
                rw [isPaginationUrl, hg]
                simpa using h2
            · simp only [h3, Bool.false_eq_true, if_neg, not_false_iff]
              exact h
          · simp only [h2, Bool.false_eq_true, if_neg, not_false_iff]
            exact h
      · simp only [h1, Bool.false_eq_true, if_neg, not_false_iff]
        exact h
  exact hstep links ([], []) (by intro p hp; simp at hp)

theorem fillPagination_pagination (cu : Url) (minPage maxPage : Nat)
    (collected : List Url)
    (h : ∀ p ∈ collected, isPaginationUrl p = true) :
    ∀ p ∈ fillPagination cu minPage maxPage collected, isPaginationUrl p = true := by
  rw [fillPagination]
  generalize List.range' minPage (maxPage + 1 - minPage) = is
  induction is generalizing collected with
  | nil => exact h
  | cons i tl ih =>
    rw [List.foldl_cons]
    apply ih
    dsimp only
    split_ifs with hc
    · exact h
    · intro p hp
      rcases List.mem_append.mp hp with hp | hp
      · exact h p hp
      · obtain rfl := List.mem_singleton.mp hp
        rw [isPaginationUrl, searchGet]
        dsimp only
        rw [searchSet_find]
        simpa using natToDec_allDigits i

/-- Every URL in `detectPagination`'s `pageUrls` carries an all-digit `page`
parameter: the collected links were tested for one, and the filled-in URLs
get one from `searchParams.set`. -/
theorem detectPagination_pageUrls (links : List Url) (cu : Url) :
    ∀ p ∈ (detectPagination links cu).pageUrls, isPaginationUrl p = true := by
  rw [detectPagination]
  have hcol := collectPagination_snd links cu
  dsimp only
  split_ifs with hsz hfill
  · exact fillPagination_pagination cu _ _ _ hcol
  · exact hcol
  · intro p hp
    simp at hp

/-! ## C3: effect lemmas — which parts of the state each stage can touch -/

/-- The frontier-related components of the crawler state: the visited set,
the ghost enqueue log, and the queue state. -/
def sameFrontier (a b : CrawlState) : Prop :=
  a.visitedUrls = b.visitedUrls ∧ a.enqueueLog = b.enqueueLog ∧ a.urlQueue = b.urlQueue

theorem sameFrontier_rfl (a : CrawlState) : sameFrontier a a := ⟨rfl, rfl, rfl⟩

theorem sameFrontier_trans {a b c : CrawlState}
    (h1 : sameFrontier a b) (h2 : sameFrontier b c) : sameFrontier a c :=
  ⟨h1.1.trans h2.1, h1.2.1.trans h2.2.1, h1.2.2.trans h2.2.2⟩

theorem foldl_fix_frontier {α : Type} (f : CrawlState → α → CrawlState)
    (h : ∀ b a, sameFrontier (f b a) b) (l : List α) (b : CrawlState) :
    sameFrontier (l.foldl f b) b := by
  induction l generalizing b with
  | nil => exact sameFrontier_rfl b
  | cons x tl ih =>
    rw [List.foldl_cons]
    exact sameFrontier_trans (ih (f b x)) (h b x)

theorem processLink_no_enqueue (cfg : CrawlConfig) (pu : Url) (d : Nat)
    (hnd : ¬ d < cfg.maxDepth) (st : CrawlState) (l : Url) :
    sameFrontier (processLink cfg pu d st l) st := by
  rw [processLink]
  split_ifs <;> exact ⟨rfl, rfl, rfl⟩

theorem findEmbeddedDocuments_frontier (cfg : CrawlConfig) (env : CrawlEnv)
    (pu : Url) (page : Page) (d : Nat) (st : CrawlState) :
    sameFrontier (findEmbeddedDocuments cfg env pu page d st) st := by
  rw [findEmbeddedDocuments]
  apply foldl_fix_frontier
  intro b a
  split_ifs with ha
  · exact sameFrontier_rfl b
  · cases env.resolve pu a with
    | none => exact sameFrontier_rfl b
    | some u =>
      dsimp only
      split_ifs
      · exact ⟨rfl, rfl, rfl⟩
      · exact sameFrontier_rfl b

theorem estimateStage_frontier (cfg : CrawlConfig) (links : List Url)
    (st : CrawlState) : sameFrontier (estimateStage cfg links st) st := by
  rw [estimateStage]
  split_ifs with h
  · rw [estimateTotalPages]
    split_ifs <;> exact ⟨rfl, rfl, rfl⟩
  · exact sameFrontier_rfl st

theorem mem_foldl_sortInsert (x : QueueEntry) :
    ∀ (l acc : List QueueEntry),
      (x ∈ l.foldl (fun acc y => sortInsert queueCmp y acc) acc ↔ x ∈ acc ∨ x ∈ l) := by
  intro l
  induction l with
  | nil => intro acc; simp
  | cons y tl ih =>
    intro acc
    rw [List.foldl_cons, ih, mem_sortInsert]
    simp
    tauto

theorem mem_jsSortStable (x : QueueEntry) (l : List QueueEntry) :
    x ∈ jsSortStable queueCmp l ↔ x ∈ l := by
  rw [jsSortStable, mem_foldl_sortInsert]
  simp

theorem crawlEnqueue_visited (st : CrawlState) (u : Url) (d : Nat) :
    (crawlEnqueue st u d).visitedUrls = st.visitedUrls := rfl

theorem crawlEnqueue_log_mem (st : CrawlState) (u : Url) (d : Nat) :
    ∀ p ∈ (crawlEnqueue st u d).enqueueLog, p ∈ st.enqueueLog ∨ p = (u, d) := by
  rw [crawlEnqueue]
  dsimp only
  split_ifs
  · intro p hp
    rcases List.mem_append.mp hp with hp | hp
    · exact Or.inl hp
    · exact Or.inr (List.mem_singleton.mp hp)
  · intro p hp
    exact Or.inl hp

theorem crawlEnqueue_queue_mem (st : CrawlState) (u : Url) (d : Nat) :
    ∀ e ∈ (crawlEnqueue st u d).urlQueue.queue,
      e ∈ st.urlQueue.queue ∨ e.depth = d := by
  rw [crawlEnqueue, enqueue]
  dsimp only
  split_ifs with h
  · intro e he
    exact Or.inl he
  · intro e he
    dsimp only at he
    have hm := (mem_jsSortStable e _).mp he
    rcases List.mem_append.mp hm with hm | hm
    · exact Or.inl hm
    · obtain rfl := List.mem_singleton.mp hm
      exact Or.inr rfl

/-- Within `paginationStage` at depth `d`, the frontier can only grow by
pagination URLs at depth `d + 1`. -/
theorem paginationStage_effects (links : List Url) (pu : Url) (d : Nat)
    (st : CrawlState) :
    (paginationStage links pu d st).visitedUrls = st.visitedUrls ∧
    (∀ p ∈ (paginationStage links pu d st).enqueueLog,
       p ∈ st.enqueueLog ∨ (p.2 = d + 1 ∧ isPaginationUrl p.1 = true)) ∧
    (∀ e ∈ (paginationStage links pu d st).urlQueue.queue,
       e ∈ st.urlQueue.queue ∨ e.depth = d + 1) := by
  rw [paginationStage]
  split_ifs with h1
  · dsimp only
    split_ifs with h2
    · have hfold : ∀ (pus : List Url) (b : CrawlState),
          (∀ p ∈ pus, isPaginationUrl p = true) →
          (b.visitedUrls = st.visitedUrls ∧
           (∀ p ∈ b.enqueueLog,
             p ∈ st.enqueueLog ∨ (p.2 = d + 1 ∧ isPaginationUrl p.1 = true)) ∧
           (∀ e ∈ b.urlQueue.queue, e ∈ st.urlQueue.queue ∨ e.depth = d + 1)) →
          ((pus.foldl (fun st pu =>
              if !st.visitedUrls.contains pu then crawlEnqueue st pu (d + 1) else st)
            b).visitedUrls = st.visitedUrls ∧
           (∀ p ∈ (pus.foldl (fun st pu =>
              if !st.visitedUrls.contains pu then crawlEnqueue st pu (d + 1) else st)
            b).enqueueLog,
             p ∈ st.enqueueLog ∨ (p.2 = d + 1 ∧ isPaginationUrl p.1 = true)) ∧
           (∀ e ∈ (pus.foldl (fun st pu =>
              if !st.visitedUrls.contains pu then crawlEnqueue st pu (d + 1) else st)
            b).urlQueue.queue,
             e ∈ st.urlQueue.queue ∨ e.depth = d + 1)) := by
        intro pus
        induction pus with
        | nil => intro b _ hb; exact hb
        | cons q tl ih =>
          intro b hq hb
          rw [List.foldl_cons]
          apply ih _ (fun p hp => hq p (List.mem_cons_of_mem q hp))
          split_ifs with hv
          · refine ⟨(crawlEnqueue_visited b q (d + 1)).trans hb.1, ?_, ?_⟩
            · intro p hp
              rcases crawlEnqueue_log_mem b q (d + 1) p hp with hp | hp
              · exact hb.2.1 p hp
              · refine Or.inr ⟨by rw [hp], ?_⟩
                rw [hp]
                exact hq q (List.mem_cons_self q tl)
            · intro e he
              rcases crawlEnqueue_queue_mem b q (d + 1) e he with he | he
              · exact hb.2.2 e he
              · exact Or.inr he
          · exact hb
      exact hfold _ _ (detectPagination_pageUrls links pu) ⟨rfl, fun p hp => Or.inl hp,
        fun e he => Or.inl he⟩
    · exact ⟨rfl, fun p hp => Or.inl hp, fun e he => Or.inl he⟩
  · exact ⟨rfl, fun p hp => Or.inl hp, fun e he => Or.inl he⟩

/-- At a depth with no remaining crawl budget (`¬ d < maxDepth`), processing
an HTML page can change the frontier only by pagination URLs enqueued at
`d + 1`. -/
theorem processHtmlPage_frontier (cfg : CrawlConfig) (env : CrawlEnv) (pu : Url)
    (page : Page) (d : Nat) (hnd : ¬ d < cfg.maxDepth) (st : CrawlState) :
    (processHtmlPage cfg env pu page d st).visitedUrls = st.visitedUrls ∧
    (∀ p ∈ (processHtmlPage cfg env pu page d st).enqueueLog,
       p ∈ st.enqueueLog ∨ (p.2 = d + 1 ∧ isPaginationUrl p.1 = true)) ∧
    (∀ e ∈ (processHtmlPage cfg env pu page d st).urlQueue.queue,
       e ∈ st.urlQueue.queue ∨ e.depth = d + 1) := by
  rw [processHtmlPage]
  set links := page.anchorHrefs.filterMap (env.resolve pu) with hl
  set st1 := paginationStage links pu d st with h1
  set st2 := estimateStage cfg links st1 with h2
  set st3 := links.foldl (processLink cfg pu d) st2 with h3
  have hp1 := paginationStage_effects links pu d st
  have hp2 := estimateStage_frontier cfg links st1
  have hp3 : sameFrontier st3 st2 :=
    foldl_fix_frontier _ (fun b a => processLink_no_enqueue cfg pu d hnd b a) links st2
  have hp4 := findEmbeddedDocuments_frontier cfg env pu page d st3
  rw [← h1] at hp1
  have hf : sameFrontier (findEmbeddedDocuments cfg env pu page d st3) st1 :=
    sameFrontier_trans hp4 (sameFrontier_trans hp3 hp2)
  refine ⟨hf.1.trans hp1.1, ?_, ?_⟩
  · intro p hp
    rw [hf.2.1] at hp
    exact hp1.2.1 p hp
  · intro e he
    rw [hf.2.2] at he
    exact hp1.2.2 e he

/-- At a depth with no remaining crawl budget, `processUrl` adds the URL to
the visited set, counts it, and can grow the frontier only by pagination
URLs at `d + 1` — whatever the fetch returns. -/
theorem processUrl_frontier (cfg : CrawlConfig) (env : CrawlEnv) (u : Url)
    (d : Nat) (hnd : ¬ d < cfg.maxDepth) (st : CrawlState) :
    (processUrl cfg env u d st).visitedUrls = jsSetAdd st.visitedUrls u ∧
    (∀ p ∈ (processUrl cfg env u d st).enqueueLog,
       p ∈ st.enqueueLog ∨ (p.2 = d + 1 ∧ isPaginationUrl p.1 = true)) ∧
    (∀ e ∈ (processUrl cfg env u d st).urlQueue.queue,
       e ∈ st.urlQueue.queue ∨ e.depth = d + 1) := by
  rw [processUrl]
  cases env.fetch u with
  | netErr m =>
    exact ⟨rfl, fun p hp => Or.inl hp, fun e he => Or.inl he⟩
  | ok status ct page cl =>
    dsimp only
    split_ifs with hs hh hd
    · exact ⟨rfl, fun p hp => Or.inl hp, fun e he => Or.inl he⟩
    · exact processHtmlPage_frontier cfg env u page d hnd _
    · exact ⟨rfl, fun p hp => Or.inl hp, fun e he => Or.inl he⟩
    · exact ⟨rfl, fun p hp => Or.inl hp, fun e he => Or.inl he⟩

theorem shouldSkipUrl_false (cfg : CrawlConfig) (st : CrawlState) (u : Url)
    (d : Nat) (h : shouldSkipUrl cfg st u d = false) :
    d ≤ cfg.maxDepth ∧ st.visitedUrls.contains u = false := by
  rw [shouldSkipUrl] at h
  split_ifs at h with h1 h2 h3 h4
  exact ⟨by omega, by simpa using h1⟩

/-- The invariant after the first iteration of a `maxDepth = 0` crawl: one
page visited (the start URL), every log entry at depth 0 or a pagination URL
at depth 1, every queued entry at depth ≥ 1. -/
def DepthZeroInv (cfg : CrawlConfig) (ls : LoopState) : Prop :=
  ls.st.stats.pagesVisited = 1 ∧
  ls.st.visitedUrls = [cfg.startUrl] ∧
  (∀ p ∈ ls.st.enqueueLog, p.2 = 0 ∨ (p.2 = 1 ∧ isPaginationUrl p.1 = true)) ∧
  (∀ e ∈ ls.st.urlQueue.queue, 1 ≤ e.depth)

theorem crawlIteration_preserves_depthZero (cfg : CrawlConfig) (env : CrawlEnv)
    (ls : LoopState) (hd : cfg.maxDepth = 0) (h : DepthZeroInv cfg ls) :
    DepthZeroInv cfg ((crawlIteration cfg env ls).state) := by
  rw [crawlIteration]
  split_ifs with h1 h2
  · exact h
  · exact h
  · dsimp only
    rcases hq : ls.st.urlQueue.queue with _ | ⟨e, rest⟩
    · exfalso
      rw [queueIsEmpty, hq] at h1
      simp at h1
    · simp only [dequeue, hq]
      have hedepth : 1 ≤ e.depth := h.2.2.2 e (by rw [hq]; exact List.mem_cons_self e rest)
      split_ifs with hskip
      · exact ⟨h.1, h.2.1, h.2.2.1,
          fun x hx => h.2.2.2 x (by rw [hq]; exact List.mem_cons_of_mem e hx)⟩
      · exfalso
        have hle := shouldSkipUrl_false cfg _ e.url e.depth (by simpa using hskip)
        omega

def startEntry (u : Url) : QueueEntry :=
  { url := u, depth := 0, priority := 0, idx := 0 }

/-- The crawler state after `start()` seeds the frontier. -/
theorem crawlEnqueue_init (u : Url) :
    crawlEnqueue initCrawlState u 0 =
      { urlQueue := { queue := [startEntry u], seen := [u], nextIdx := 1 },
        visitedUrls := [], foundDocuments := [], errors := 0,
        stats := initStats, enqueueLog := [(u, 0)] } := rfl

/-- The first iteration of a `maxDepth = 0` crawl whose start URL passes the
filter: the start URL is dequeued, not skipped, and processed, leaving the
depth-zero invariant. -/
theorem crawlIteration_phaseA (cfg : CrawlConfig) (env : CrawlEnv)
    (hd : cfg.maxDepth = 0) (hp : 1 ≤ cfg.maxPages)
    (hc : shouldCrawlUrl cfg.filter cfg.startUrl = true) :
    ∃ ls', crawlIteration cfg env
        { st := crawlEnqueue initCrawlState cfg.startUrl 0,
          noProgressCount := 0, lastPageCount := 0 }
        = .next ls' ∧ DepthZeroInv cfg ls' := by
  have hnd : ¬ (0 : Nat) < cfg.maxDepth := by omega
  rw [crawlEnqueue_init, crawlIteration]
  dsimp only [queueIsEmpty, List.isEmpty, initStats, dequeue, queueSize, startEntry]
  split_ifs with h1 h2 hskip
  · exfalso
    revert h1
    simp
    omega
  · exfalso
    revert h2
    simp
  · exfalso
    revert hskip
    simp [shouldSkipUrl, hc, hd, unawaitedIsAllowedTruthy]
  · refine ⟨_, rfl, ?_, ?_, ?_, ?_⟩
    · rw [processUrl_pagesVisited]
    · rw [(processUrl_frontier cfg env cfg.startUrl 0 hnd _).1]
      rfl
    · intro p hp'
      rcases (processUrl_frontier cfg env cfg.startUrl 0 hnd _).2.1 p hp' with hp' | hp'
      · rcases List.mem_singleton.mp hp' with rfl
        exact Or.inl rfl
      · exact Or.inr hp'
    · intro e he
      rcases (processUrl_frontier cfg env cfg.startUrl 0 hnd _).2.2 e he with he | he
      · exact absurd he (List.not_mem_nil e)
      · omega

theorem crawlLoop_depthZero (cfg : CrawlConfig) (env : CrawlEnv) (fuel : Nat)
    (ls : LoopState) (hd : cfg.maxDepth = 0) (h : DepthZeroInv cfg ls) :
    DepthZeroInv cfg (crawlLoop cfg env fuel ls) := by
  induction fuel generalizing ls with
  | zero => exact h
  | succ n ih =>
    rw [crawlLoop]
    have hstep := crawlIteration_preserves_depthZero cfg env ls hd h
    cases hit : crawlIteration cfg env ls with
    | done ls' =>
      rw [hit] at hstep
      exact hstep
    | next ls' =>
      rw [hit] at hstep
      exact ih ls' hstep

/-- C3 (amended): a `maxDepth = 0` crawl from a filter-passing start URL,
under every fetch environment and at every point from the first iteration
on, has visited exactly the start page (`pagesVisited = 1`), and every
accepted frontier insertion is the start URL at depth 0 or a pagination URL
at depth 1 — so the regular link loop enqueues nothing at depth 1, only
root-page pagination detection does, and none of those depth-1 entries is
ever visited. -/
theorem C3_depth_zero_one_page (cfg : CrawlConfig) (env : CrawlEnv) (fuel : Nat)
    (hd : cfg.maxDepth = 0) (hp : 1 ≤ cfg.maxPages)
    (hc : shouldCrawlUrl cfg.filter cfg.startUrl = true) (hf : 1 ≤ fuel) :
    (startCrawl cfg env fuel).stats.pagesVisited = 1 ∧
    (startCrawl cfg env fuel).visitedUrls = [cfg.startUrl] ∧
    (∀ p ∈ (startCrawl cfg env fuel).enqueueLog,
       p.2 = 0 ∨ (p.2 = 1 ∧ isPaginationUrl p.1 = true)) := by
  obtain ⟨f, rfl⟩ : ∃ f, fuel = f + 1 := ⟨fuel - 1, by omega⟩
  rw [startCrawl, crawlLoop]
  obtain ⟨ls', hnext, hinv⟩ := crawlIteration_phaseA cfg env hd hp hc
  rw [hnext]
  have hfin := crawlLoop_depthZero cfg env f ls' hd hinv
  exact ⟨hfin.1, hfin.2.1, hfin.2.2.1⟩

/-! ## Concrete crawl scenarios for C1, C2 and C3 -/

def urlRoot : Url :=
  { protocol := "https:", hostname := "example.com", pathname := "/",
    search := [], hash := "" }

def urlPage (v : String) : Url :=
  { protocol := "https:", hostname := "example.com", pathname := "/",
    search := [("page", v)], hash := "" }

/-- A permissive filter configuration with no document types. -/
def filterPlain : FilterConfig :=
  { allowedFileTypes := [], blockedDomains := [], allowedDomains := [],
    stayOnDomain := false, startUrl := some urlRoot, minFileSize := 0,
    maxFileSize := 10485760, savePageContent := false }

/-- The root page of the pagination scenario: anchors to `?page=1` and
`?page=3` of the same path. -/
def pagePagin : Page :=
  { anchorHrefs := ["?page=1", "?page=3"], imgSrcs := [], iframeSrcs := [],
    embedSrcs := [], objectDatas := [], sourceSrcs := [] }

def cfgPagin : CrawlConfig :=
  { filter := filterPlain, startUrl := urlRoot, maxDepth := 0, maxPages := 10,
    respectRobotsTxt := false }

def envPagin : CrawlEnv :=
  { fetch := fun u => if u = urlRoot then .ok 200 "text/html" pagePagin none
                      else .netErr "offline",
    resolve := fun _ href =>
      if href = "?page=1" then some (urlPage "1")
      else if href = "?page=3" then some (urlPage "3")
      else none,
    robotsAllows := fun _ => true }

/-- The robots scenario: compliance enabled, a policy that disallows
everything. -/
def cfgRobots : CrawlConfig :=
  { filter := filterPlain, startUrl := urlRoot, maxDepth := 1, maxPages := 10,
    respectRobotsTxt := true }

def envRobots : CrawlEnv :=
  { fetch := fun _ => .ok 200 "text/html" emptyPage none,
    resolve := fun _ _ => none,
    robotsAllows := fun _ => false }

/-- The document-anchor scenario: PDFs whitelisted, the root page holding
one anchor to `report.pdf?v=2`. -/
def urlDocQ : Url :=
  { protocol := "https:", hostname := "example.com", pathname := "/report.pdf",
    search := [("v", "2")], hash := "" }

def pageDocAnchor : Page :=
  { anchorHrefs := ["report.pdf?v=2"], imgSrcs := [], iframeSrcs := [],
    embedSrcs := [], objectDatas := [], sourceSrcs := [] }

def cfgDocAnchor : CrawlConfig :=
  { filter := { filterPlain with allowedFileTypes := ["pdf"] },
    startUrl := urlRoot, maxDepth := 1, maxPages := 10, respectRobotsTxt := false }

def envDocAnchor : CrawlEnv :=
  { fetch := fun u => if u = urlRoot then .ok 200 "text/html" pageDocAnchor none
                      else .netErr "offline",
    resolve := fun _ href => if href = "report.pdf?v=2" then some urlDocQ else none,
    robotsAllows := fun _ => true }

/-- C2: with `respectRobotsTxt` enabled and a robots policy that disallows
the start URL, the crawl nevertheless fetches it and counts it in
`pagesVisited`, and in general `shouldSkipUrl` is insensitive to the
`respectRobotsTxt` flag: its robots branch tests the truthiness of an
unawaited Promise, which never skips. -/
theorem C2_robots_disallowed_still_visited :
    cfgRobots.respectRobotsTxt = true ∧
    envRobots.robotsAllows cfgRobots.startUrl = false ∧
    (startCrawl cfgRobots envRobots 3).stats.pagesVisited = 1 ∧
    (startCrawl cfgRobots envRobots 3).visitedUrls = [cfgRobots.startUrl] ∧
    (∀ (cfg : CrawlConfig) (st : CrawlState) (u : Url) (d : Nat),
      shouldSkipUrl cfg st u d
        = shouldSkipUrl { cfg with respectRobotsTxt := false } st u d) := by
  refine ⟨rfl, rfl, by rfl, by rfl, ?_⟩
  intro cfg st u d
  simp [shouldSkipUrl, unawaitedIsAllowedTruthy]

/-- C1: a link that ContentFilter classifies as a document and that passes
the crawl filter, extracted from an anchor of a processed page and never
visited, is not registered in the discovered-documents map: the
registration branch of the link loop sits under `shouldFollowLink`, which
is false for every document URL, and the embed selectors only catch anchors
whose raw `href` ends exactly in a document extension. -/
theorem C1_document_anchor_never_registered :
    pageDocAnchor.anchorHrefs = ["report.pdf?v=2"] ∧
    envDocAnchor.resolve urlRoot "report.pdf?v=2" = some urlDocQ ∧
    isDocumentUrl cfgDocAnchor.filter urlDocQ = true ∧
    shouldCrawlUrl cfgDocAnchor.filter urlDocQ = true ∧
    (startCrawl cfgDocAnchor envDocAnchor 3).visitedUrls.contains urlDocQ = false ∧
    (startCrawl cfgDocAnchor envDocAnchor 3).foundDocuments = [] ∧
    (∀ (cf : FilterConfig) (u : Url),
      shouldFollowLink cf u = true → isDocumentUrl cf u = false) := by
  refine ⟨rfl, by rfl, by rfl, by rfl, by rfl, by rfl, ?_⟩
  intro cf u h
  by_cases hdoc : isDocumentUrl cf u = true
  · rw [shouldFollowLink, hdoc] at h
    simp at h
  · simpa using hdoc

/-- C3 counterexample: the claim says a `maxDepth = 0` crawl enqueues zero
depth-1 URLs, including pagination URLs.  In the concrete crawl whose root
page links to `?page=1` and `?page=3`, exactly one page is visited but
three pagination URLs (`?page=1`, `?page=2`, `?page=3` — fill-in included)
are enqueued at depth 1: the pagination block of `processHtmlPage` enqueues
at `depth + 1` with no `maxDepth` check. -/
theorem C3_counterexample_pagination_enqueued :
    cfgPagin.maxDepth = 0 ∧
    (startCrawl cfgPagin envPagin 6).stats.pagesVisited = 1 ∧
    ((startCrawl cfgPagin envPagin 6).enqueueLog.filter (fun p => p.2 == 1)).length = 3 :=
  ⟨rfl, by rfl, by rfl⟩

/-- Witness for the amended C3 at the concrete pagination scenario. -/
theorem C3_depth_zero_one_page_witness :
    cfgPagin.maxDepth = 0 ∧ 1 ≤ cfgPagin.maxPages ∧
    shouldCrawlUrl cfgPagin.filter cfgPagin.startUrl = true ∧ (1 : Nat) ≤ 6 ∧
    ((startCrawl cfgPagin envPagin 6).stats.pagesVisited = 1 ∧
     (startCrawl cfgPagin envPagin 6).visitedUrls = [cfgPagin.startUrl] ∧
     (∀ p ∈ (startCrawl cfgPagin envPagin 6).enqueueLog,
        p.2 = 0 ∨ (p.2 = 1 ∧ isPaginationUrl p.1 = true))) :=
  ⟨rfl, by decide, by rfl, by omega,
    C3_depth_zero_one_page cfgPagin envPagin 6 rfl (by decide) (by rfl) (by omega)⟩

/-- C4: at every point during a crawl session — after any number of loop
iterations, under any fetch environment, whatever is left in the frontier —
`stats.pagesVisited` never exceeds `config.maxPages`: each iteration first
checks `pagesVisited < maxPages` and visits at most one page. -/
theorem C4_pages_visited_never_exceeds_budget (cfg : CrawlConfig) (env : CrawlEnv)
    (fuel : Nat) :
    (startCrawl cfg env fuel).stats.pagesVisited ≤ cfg.maxPages := by
  rw [startCrawl]
  have h := crawlLoop_budget cfg env fuel
    { st := crawlEnqueue initCrawlState cfg.startUrl 0,
      noProgressCount := 0, lastPageCount := 0 }
    (by simp [crawlEnqueue_stats, initCrawlState, initStats])
  simpa [crawlFinish] using h

/-! ## PageEstimator (`src/crawler/PageEstimator.js`)

The pre-crawl estimator.  As with the crawler, a fetched resource is
modelled by the data the estimator's cheerio/regex extraction steps read
from it (`EstDoc`); fetching, URL parsing and reference resolution are
oracles (`EstEnv`).  `parseSitemap` recurses into the child sitemaps of a
sitemap index with no visited-set guard; in JS a cyclic index overflows the
stack, and the resulting RangeError is caught by `parseSitemap`'s own
`catch`, returning 0 — the fuel parameter plays that role. -/

structure EstDoc where
  /-- Raw `a[href]` attribute values. -/
  anchors : List String
  /-- Page numbers the pagination selectors and total-indicator scans of
  `analyzePagination` extract from this page. -/
  paginationNumbers : List Nat
  /-- `<sitemap><loc>` texts (nonempty exactly for a sitemap index). -/
  sitemapChildLocs : List String
  /-- Count of `<url><loc>` elements of a regular sitemap. -/
  urlLocCount : Nat
  /-- `Sitemap:` URLs of a robots.txt body. -/
  robotsSitemaps : List String
deriving Repr

structure EstEnv where
  fetch : String → Except String EstDoc
  parseUrl : String → Option Url
  resolveHref : String → String → Option Url

structure EstConfig where
  maxDepth : Nat
  maxSamplePages : Nat
deriving Repr

/-- `parseSitemap(sitemapUrl, content?)` (PageEstimator.js:133): fetch when
no content is given; a sitemap index sums the counts of its first 10
children; else the `<url><loc>` count; any error (also the stack overflow
of a cyclic index, here fuel exhaustion) is caught and yields 0. -/
def parseSitemap (env : EstEnv) : Nat → String → Option EstDoc → Nat
  | 0, _, _ => 0
  | fuel + 1, sitemapUrl, content =>
    let fetched : Except String EstDoc :=
      match content with
      | some c => .ok c
      | none => env.fetch sitemapUrl
    match fetched with
    | .error _ => 0
    | .ok doc =>
      if doc.sitemapChildLocs.isEmpty then doc.urlLocCount
      else
        (doc.sitemapChildLocs.take 10).foldl
          (fun acc loc => acc + parseSitemap env fuel loc none) 0

def firstPositive : List Nat → Option Nat
  | [] => none
  | n :: tl => if n > 0 then some n else firstPositive tl

/-- The probe loop of `checkSitemap` (PageEstimator.js:92-113): per-probe
fetch failures are caught and skipped; a robots.txt probe tries each
declared sitemap; the first positive count wins. -/
def checkProbes (env : EstEnv) (fuel : Nat) : List String → Nat
  | [] => 0
  | probe :: rest =>
    match env.fetch probe with
    | .error _ => checkProbes env fuel rest
    | .ok doc =>
      if strContainsSub probe "robots.txt" then
        match firstPositive (doc.robotsSitemaps.map
            (fun sm => parseSitemap env fuel sm none)) with
        | some n => n
        | none => checkProbes env fuel rest
      else
        let c := parseSitemap env fuel probe (some doc)
        if c > 0 then c else checkProbes env fuel rest

/-- `checkSitemap(startUrl)` (PageEstimator.js:84): `new URL(startUrl)` at
the top sits outside every inner `try` — a malformed start URL throws out
of the stage (the only uncaught throw site of the pipeline). -/
def checkSitemap (env : EstEnv) (fuel : Nat) (startUrl : String) : Except String Nat :=
  match env.parseUrl startUrl with
  | none => .error "Invalid URL"
  | some base =>
    let origin := base.protocol ++ "//" ++ base.hostname
    .ok (checkProbes env fuel
      [origin ++ "/sitemap.xml", origin ++ "/sitemap_index.xml", origin ++ "/robots.txt"])

structure SampleState where
  visitedUrls : List String
  discoveredUrls : List String
deriving Repr

/-- The same-host link set one sampled page contributes
(PageEstimator.js:188-203). -/
def sameHostLinks (env : EstEnv) (pageUrl : String) (base : Url)
    (anchors : List String) : List String :=
  anchors.foldl
    (fun acc href =>
      match env.resolveHref pageUrl href with
      | none => acc
      | some u => if u.hostname == base.hostname then jsSetAdd acc (urlToString u) else acc)
    []

/-- `sampleCrawl(url, depth)` (PageEstimator.js:171): bounded by `maxDepth`
and `maxSamplePages`, all errors caught per page; recurses into the first
`min(5, n)` same-host links.  The JS recursion depth is bounded by
`maxDepth`, so any fuel above it computes the same state. -/
def sampleCrawl (cfg : EstConfig) (env : EstEnv) :
    Nat → String → Nat → SampleState → SampleState
  | 0, _, _, s => s
  | fuel + 1, url, depth, s =>
    if decide (depth ≥ cfg.maxDepth) || s.visitedUrls.contains url ||
        decide (s.visitedUrls.length ≥ cfg.maxSamplePages) then s
    else
      let s := { s with visitedUrls := jsSetAdd s.visitedUrls url }
      match env.fetch url with
      | .error _ => s
      | .ok doc =>
        match env.parseUrl url with
        | none => s
        | some base =>
          let hostLinks := sameHostLinks env url base doc.anchors
          let s := { s with discoveredUrls := hostLinks.foldl jsSetAdd s.discoveredUrls }
          (hostLinks.take (min 5 hostLinks.length)).foldl
            (fun s l => sampleCrawl cfg env fuel l (depth + 1) s) s

/-- `analyzePagination(startUrl)` (PageEstimator.js:219): maximum extracted
page number, 0 when the fetch fails (caught). -/
def analyzePagination (env : EstEnv) (startUrl : String) : Nat :=
  match env.fetch startUrl with
  | .error _ => 0
  | .ok doc => doc.paginationNumbers.foldl Nat.max 0

/-- `estimateFromDiscovery()` (PageEstimator.js:297): the discovery-scaling
heuristic (`Math.floor` of ×1.5 / ×2). -/
def estimateFromDiscovery (discovered : Nat) : Nat :=
  if discovered < 10 then discovered
  else if discovered < 50 then discovered * 3 / 2
  else discovered * 2

/-- `EstimationResult` without the free-text `patterns`/`error` fields,
which carry only log strings. -/
structure EstResult where
  estimatedTotal : Nat
  discoveredUrls : Nat
  paginationDetected : Bool
  sitemapFound : Bool
  sampleUrls : List String
  confidence : String
deriving Repr, DecidableEq

/-- The conservative fallback of `estimatePages`'s catch
(PageEstimator.js:70-81). -/
def defaultErrorResult (startUrl : String) : EstResult :=
  { estimatedTotal := 1, discoveredUrls := 1, paginationDetected := false,
    sitemapFound := false, sampleUrls := [startUrl], confidence := "error" }

/-- The try-block body of `estimatePages` (PageEstimator.js:26-67): sitemap
stage short-circuits with `high`; else sample crawl, then pagination
analysis (`medium`) or the discovery heuristic (`low` when inflated, else
`medium`). -/
def estimatePagesBody (cfg : EstConfig) (env : EstEnv) (fuel : Nat)
    (startUrl : String) : Except String EstResult :=
  match checkSitemap env fuel startUrl with
  | .error e => .error e
  | .ok sitemapPages =>
    if sitemapPages > 0 then
      .ok { estimatedTotal := sitemapPages, discoveredUrls := 0,
            paginationDetected := false, sitemapFound := true, sampleUrls := [],
            confidence := "high" }
    else
      let s := sampleCrawl cfg env fuel startUrl 0 ⟨[], []⟩
      let discovered := s.discoveredUrls.length
      let sampleUrls := s.discoveredUrls.take 20
      let paginationEstimate := analyzePagination env startUrl
      if paginationEstimate > 0 then
        .ok { estimatedTotal := Nat.max discovered paginationEstimate,
              discoveredUrls := discovered, paginationDetected := true,
              sitemapFound := false, sampleUrls := sampleUrls, confidence := "medium" }
      else
        let total := estimateFromDiscovery discovered
        .ok { estimatedTotal := total, discoveredUrls := discovered,
              paginationDetected := false, sitemapFound := false,
              sampleUrls := sampleUrls,
              confidence := if total > discovered then "low" else "medium" }

/-- `estimatePages(startUrl)` (PageEstimator.js:23): the whole body sits in
one `try`; any escaping exception is caught and replaced by the
conservative default, so the function is total. -/
def estimatePages (cfg : EstConfig) (env : EstEnv) (fuel : Nat)
    (startUrl : String) : EstResult :=
  match estimatePagesBody cfg env fuel startUrl with
  | .ok r => r
  | .error _ => defaultErrorResult startUrl

/-! ## C8 -/

def cfgEst : EstConfig := { maxDepth := 3, maxSamplePages := 50 }

/-- An environment where every network fetch fails and URL parsing
succeeds. -/
def envEstAllFail : EstEnv :=
  { fetch := fun _ => .error "ECONNREFUSED",
    parseUrl := fun _ => some urlRoot,
    resolveHref := fun _ _ => none }

/-- An environment where parsing the start URL throws. -/
def envEstBadUrl : EstEnv :=
  { fetch := fun _ => .error "ECONNREFUSED",
    parseUrl := fun _ => none,
    resolveHref := fun _ _ => none }

/-- C8 counterexample: when every stage fails on network errors, the result
is not the conservative default `{estimatedTotal := 1, confidence :=
"error"}` — the per-stage catches swallow the failures and the pipeline
falls through to the discovery heuristic, reporting `estimatedTotal = 0`
with confidence `"medium"`. -/
theorem C8_counterexample_stage_failure_not_default :
    envEstAllFail.fetch "https://example.com/sitemap.xml" = .error "ECONNREFUSED" ∧
    estimatePages cfgEst envEstAllFail 10 "https://example.com/"
      = { estimatedTotal := 0, discoveredUrls := 0, paginationDetected := false,
          sitemapFound := false, sampleUrls := [], confidence := "medium" } ∧
    estimatePages cfgEst envEstAllFail 10 "https://example.com/"
      ≠ defaultErrorResult "https://example.com/" := by
  refine ⟨rfl, by rfl, ?_⟩
  intro h
  have := congrArg EstResult.estimatedTotal h
  simp [defaultErrorResult] at this
  rw [show (estimatePages cfgEst envEstAllFail 10 "https://example.com/").estimatedTotal
      = 0 from rfl] at this
  exact absurd this (by omega)

/-- C8 (amended): `estimatePages` is a total function of its environment —
the whole pipeline runs inside one `try`, so no exception reaches the
caller — and whenever an exception escapes a stage to that handler (which
only the start-URL parse in `checkSitemap` can do), the conservative
default `{estimatedTotal := 1, confidence := "error"}` is returned.
Stage-internal fetch failures do not produce the default (see the
counterexample): each stage catches its own errors and the pipeline
continues. -/
theorem C8_estimate_error_default (cfg : EstConfig) (env : EstEnv) (fuel : Nat)
    (startUrl : String) (h : env.parseUrl startUrl = none) :
    estimatePages cfg env fuel startUrl = defaultErrorResult startUrl := by
  rw [estimatePages, estimatePagesBody, checkSitemap, h]

/-- Witness for the amended C8 at a concrete environment whose URL parser
throws. -/
theorem C8_estimate_error_default_witness :
    envEstBadUrl.parseUrl "not a url" = none ∧
    estimatePages cfgEst envEstBadUrl 10 "not a url"
      = defaultErrorResult "not a url" :=
  ⟨rfl, C8_estimate_error_default cfgEst envEstBadUrl 10 "not a url" rfl⟩

/-! ## DocumentDownloader (`src/downloader/DocumentDownloader.js`)

The document fetcher.  The filesystem is an association list from paths to
byte sizes; `createWriteStream` creates (or truncates) the file, streaming
sets its size, `fs.remove` deletes it.  The destination path computation
(`getOutputPath`: `sanitizeFilename` plus the mirrored/flat layout policy)
is deterministic per download and is abstracted as the environment's
`outputPath`.  `fs.remove` is modelled as succeeding (the source logs and
proceeds if the cleanup delete itself fails). -/

/-- Outcome of `this.httpClient.get(url)` for a streaming download: a
thrown transport error, or a response with a status and a body stream that
either delivers `bytes` bytes and ends, or errors after writing `bytes`
bytes. -/
inductive GetOutcome
  | err (msg : String)
  | resp (status : Nat) (streamOk : Bool) (bytes : Nat)
deriving Repr, DecidableEq

structure DlEnv where
  /-- `axios.head`: `.ok (rawContentLength, contentType)` where the first
  component is the `parseInt` of the `content-length` header (`none` for
  missing/unparseable), or `.error` when the HEAD request fails. -/
  headResult : Except String (Option Int × Option String)
  getOutcome : GetOutcome
  /-- The destination `getOutputPath` computes for this download. -/
  outputPath : String

structure DlConfig where
  filter : FilterConfig
  overwriteExisting : Bool
deriving Repr

def fsExists (fs : List (String × Nat)) (p : String) : Bool :=
  fs.any (fun e => e.1 == p)

def fsWrite (fs : List (String × Nat)) (p : String) (n : Nat) : List (String × Nat) :=
  jsMapSet fs p n

def fsRemove (fs : List (String × Nat)) (p : String) : List (String × Nat) :=
  fs.filter (fun e => e.1 != p)

/-- `getFileInfo(url)` (DocumentDownloader.js:399): a failed HEAD yields
all-null info; `parseInt(...) || null` maps a zero or unparseable length to
null. -/
def getFileInfo (env : DlEnv) : Option Int × Option String :=
  match env.headResult with
  | .error _ => (none, none)
  | .ok (rawLen, ct) =>
    (match rawLen with
     | some n => if n = 0 then none else some n
     | none => none, ct)

/-- `shouldDownload(url, metadata)` (DocumentDownloader.js:516): document
URL, domain policy, and — when the metadata carries a (truthy) content
type — the content-type filter. -/
def shouldDownload (cfgf : FilterConfig) (u : Url) (metaContentType : Option String) : Bool :=
  if !isDocumentUrl cfgf u then false
  else if !isDomainAllowed cfgf u.hostname then false
  else
    match metaContentType with
    | none => true
    | some ct =>
      if ct.toList.isEmpty then true
      else isDocumentType cfgf u (some ct)

/-- The `catch` cleanup of `downloadFile` (DocumentDownloader.js:468-478):
delete the partial file if one exists, then rethrow. -/
def dlCleanup (fs : List (String × Nat)) (p : String) : List (String × Nat) :=
  if fsExists fs p then fsRemove fs p else fs

/-- `downloadFile(url, outputPath, fileInfo)` (DocumentDownloader.js:426):
non-200 statuses throw before the write stream is created; the stream
writes the body; a zero-byte result is removed and reported as an error;
every thrown error passes through the cleanup `catch` and is rethrown. -/
def downloadFile (env : DlEnv) (outputPath : String) (fs : List (String × Nat)) :
    Except String Nat × List (String × Nat) :=
  match env.getOutcome with
  | .err msg => (.error msg, dlCleanup fs outputPath)
  | .resp status streamOk bytes =>
    if status ≠ 200 then (.error "HTTP error", dlCleanup fs outputPath)
    else if streamOk then
      let fs1 := fsWrite (fsWrite fs outputPath 0) outputPath bytes
      if bytes = 0 then
        (.error "Downloaded file is empty", dlCleanup (fsRemove fs1 outputPath) outputPath)
      else (.ok bytes, fs1)
    else
      let fs1 := fsWrite (fsWrite fs outputPath 0) outputPath bytes
      (.error "stream error", dlCleanup fs1 outputPath)

structure DlResult where
  success : Bool
  skipped : Bool
  reason : Option String
  error : Option String
  path : Option String
  size : Option Nat
deriving Repr

/-- `download(url, metadata)` (DocumentDownloader.js:340): filter checks,
HEAD probe, size check, existing-file skip, then the streaming download;
the outer `catch` turns any rethrown error into `{success: false,
error}`. -/
def download (cfg : DlConfig) (env : DlEnv) (u : Url) (metaContentType : Option String)
    (fs : List (String × Nat)) : DlResult × List (String × Nat) :=
  if !shouldDownload cfg.filter u metaContentType then
    ({ success := false, skipped := true, reason := some "Filtered out",
       error := none, path := none, size := none }, fs)
  else
    let fileInfo := getFileInfo env
    if !isFileSizeAllowed cfg.filter fileInfo.1 then
      ({ success := false, skipped := true, reason := some "File size out of range",
         error := none, path := none, size := none }, fs)
    else
      let outputPath := env.outputPath
      if fsExists fs outputPath && !cfg.overwriteExisting then
        ({ success := false, skipped := true, reason := some "File already exists",
           error := none, path := none, size := none }, fs)
      else
        match downloadFile env outputPath fs with
        | (.ok size, fs') =>
          ({ success := true, skipped := false, reason := none, error := none,
             path := some outputPath, size := some size }, fs')
        | (.error e, fs') =>
          ({ success := false, skipped := false, reason := none, error := some e,
             path := none, size := none }, fs')

/-! ## C9 -/

theorem fsExists_fsRemove (fs : List (String × Nat)) (p : String) :
    fsExists (fsRemove fs p) p = false := by
  induction fs with
  | nil => rfl
  | cons e tl ih =>
    rw [fsRemove, List.filter_cons]
    by_cases h : e.1 = p
    · rw [show (e.1 != p) = false by simp [h], if_neg (by simp)]
      exact ih
    · rw [show (e.1 != p) = true by simp [h], if_pos rfl]
      rw [fsExists, List.any_cons, show (e.1 == p) = false by simp [h]]
      simp only [Bool.false_or]
      exact ih

theorem fsExists_dlCleanup (fs : List (String × Nat)) (p : String) :
    fsExists (dlCleanup fs p) p = false := by
  rw [dlCleanup]
  split_ifs with h
  · exact fsExists_fsRemove fs p
  · simpa using h

/-- C9: whenever the body streaming fails or the post-write verification
fails (a zero-byte body), `download` returns `success := false` and no file
exists at the destination path afterwards — the partial (or empty, or
pre-existing) file at that path is deleted before the error is reported. -/
theorem C9_failed_download_leaves_no_file (cfg : DlConfig) (env : DlEnv)
    (u : Url) (meta : Option String) (fs : List (String × Nat))
    (hsd : shouldDownload cfg.filter u meta = true)
    (hsz : isFileSizeAllowed cfg.filter (getFileInfo env).1 = true)
    (hex : ¬(fsExists fs env.outputPath = true ∧ cfg.overwriteExisting = false))
    (hfail : (∃ b, env.getOutcome = .resp 200 false b) ∨
             env.getOutcome = .resp 200 true 0) :
    (download cfg env u meta fs).1.success = false ∧
    fsExists (download cfg env u meta fs).2 env.outputPath = false := by
  have hex' : (fsExists fs env.outputPath && !cfg.overwriteExisting) = false := by
    by_cases h : fsExists fs env.outputPath = true
    · by_cases h2 : cfg.overwriteExisting = true
      · simp [h2]
      · exact absurd ⟨h, by simpa using h2⟩ hex
    · simp only [Bool.not_eq_true] at h
      simp [h]
  rw [download]
  simp only [hsd, hsz, hex', Bool.not_true, Bool.false_eq_true, if_false]
  rcases hfail with ⟨b, hg⟩ | hg <;>
    simp [downloadFile, hg, fsExists_dlCleanup]

/-- A concrete download whose response streams a zero-byte body. -/
def cfgDlPdf : DlConfig := { filter := cfgPdfMinOne, overwriteExisting := false }

def envDlEmpty : DlEnv :=
  { headResult := .ok (none, some "application/pdf"),
    getOutcome := .resp 200 true 0,
    outputPath := "downloads/pdf/example_com_report.pdf" }

/-- Witness for C9: the zero-byte download fails and leaves no file. -/
theorem C9_failed_download_leaves_no_file_witness :
    shouldDownload cfgDlPdf.filter urlPdfPlain none = true ∧
    isFileSizeAllowed cfgDlPdf.filter (getFileInfo envDlEmpty).1 = true ∧
    ¬(fsExists [] envDlEmpty.outputPath = true ∧ cfgDlPdf.overwriteExisting = false) ∧
    ((∃ b, envDlEmpty.getOutcome = .resp 200 false b) ∨
      envDlEmpty.getOutcome = .resp 200 true 0) ∧
    ((download cfgDlPdf envDlEmpty urlPdfPlain none []).1.success = false ∧
     fsExists (download cfgDlPdf envDlEmpty urlPdfPlain none []).2 envDlEmpty.outputPath
       = false) :=
  ⟨by rfl, by rfl, by simp [fsExists], Or.inr rfl,
    C9_failed_download_leaves_no_file cfgDlPdf envDlEmpty urlPdfPlain none []
      (by rfl) (by rfl) (by simp [fsExists]) (Or.inr rfl)⟩

end Sponge


